import Mathlib

/-!
# Kreatone duotone editor: the pixel pipeline of `script.js`

A shallow embedding of the functions of `src/script.js` that compute pixels
(`applyDuotoneEffect`, `applyGrainEffect`, `clamp`, `hexToRgb`) and of the
handlers that call them (`toggleInvert`, `updateGrainValue`, `processImage`).

JavaScript numbers are IEEE-754 doubles.  A finite double is modelled by the
rational number it denotes, and every arithmetic operation of the source is the
exact operation followed by `fl`, the rounding to the nearest double (ties to
the even significand).  All quantities of the pipeline are bounded by a few
hundred in absolute value, so neither infinities nor NaN arise and they are not
modelled.
-/

namespace Kreatone

/-! ## Numbers -/

/-- Two to the power `e`, for an integer exponent. -/
def pow2 (e : ℤ) : ℚ :=
  match e with
  | Int.ofNat n => ((2 ^ n : ℕ) : ℚ)
  | Int.negSucc n => 1 / ((2 ^ (n + 1) : ℕ) : ℚ)

/-- Nearest integer, a tie going to the even neighbour. -/
def roundHalfEven (x : ℚ) : ℤ :=
  let f := ⌊x⌋
  if x - f < 1 / 2 then f
  else if 1 / 2 < x - f then f + 1
  else if f % 2 = 0 then f else f + 1

/-- Position of the leading binary digit of `n`, by repeated halving. -/
def log2Fuel : ℕ → ℕ → ℕ
  | 0, _ => 0
  | fuel + 1, n => if 2 ≤ n then log2Fuel fuel (n / 2) + 1 else 0

/-- Floor of the binary logarithm of a natural number (`0` at `0`). -/
def natLog2 (n : ℕ) : ℕ := log2Fuel n n

/-- Floor of the binary logarithm of `|x|`, for `x ≠ 0`. -/
def ilog2 (x : ℚ) : ℤ :=
  let k : ℤ := (natLog2 x.num.natAbs : ℤ) - (natLog2 x.den : ℤ)
  if pow2 k ≤ |x| then k else k - 1

/-- Rounding of a real value to the nearest IEEE-754 binary64 number, ties to
even: 53 significant bits, the exponent of the last place never below `-1074`
(subnormal range). -/
def fl (x : ℚ) : ℚ :=
  if x = 0 then 0
  else
    let e := max (ilog2 x) (-1022) - 52
    (roundHalfEven (x / pow2 e) : ℚ) * pow2 e

/-- The function `Math.round`: the nearest integer, a tie going up. -/
def mathRound (x : ℚ) : ℤ := ⌊x + 1 / 2⌋

/-- Conversion applied by a store into a `Uint8ClampedArray` (ToUint8Clamp):
clamp to `[0, 255]`, then round to nearest, ties to even. -/
def toUint8Clamp (x : ℚ) : ℕ :=
  (roundHalfEven (min (max x 0) 255)).toNat

/-- The function `clamp` of the source: `Math.min(Math.max(value, min), max)`. -/
def clamp (value lo hi : ℚ) : ℚ := min (max value lo) hi

/-! ## Colours -/

/-- An object with fields `r`, `g`, `b`, as returned by `hexToRgb`. -/
structure Color where
  r : ℕ
  g : ℕ
  b : ℕ
  deriving DecidableEq, Repr

/-- Membership in the class `[a-f\d]` under the flag `i`. -/
def isHexDigit (c : Char) : Bool :=
  (decide ('0' ≤ c) && decide (c ≤ '9')) ||
  (decide ('a' ≤ c) && decide (c ≤ 'f')) ||
  (decide ('A' ≤ c) && decide (c ≤ 'F'))

/-- Value of one base-16 digit as `parseInt` reads it. -/
def hexDigitValue (c : Char) : ℕ :=
  if c ≤ '9' then c.toNat - 48
  else if c ≤ 'F' then c.toNat - 55
  else c.toNat - 87

/-- The call `parseInt(s, 16)` on a string that starts with a base-16 digit:
the leading digits are read most significant first.  (The capture groups of
`hexToRgb` are two base-16 digits, so the whitespace, sign and `0x` steps of
`parseInt` do nothing and the result is never NaN.) -/
def parseInt16 (s : List Char) : ℕ :=
  (s.takeWhile isHexDigit).foldl (fun acc c => 16 * acc + hexDigitValue c) 0

/-- Three groups of two base-16 digits followed by the end of the input:
`([a-f\d]{2})([a-f\d]{2})([a-f\d]{2})$`. -/
def matchGroups (s : List Char) : Option (List Char × List Char × List Char) :=
  match s with
  | [a, b, c, d, e, f] =>
    if isHexDigit a && isHexDigit b && isHexDigit c &&
        isHexDigit d && isHexDigit e && isHexDigit f then
      some ([a, b], [c, d], [e, f])
    else none
  | _ => none

/-- The regular expression `/^#?([a-f\d]{2})([a-f\d]{2})([a-f\d]{2})$/i` run on
the whole string: the optional `#` is taken first and given back if the rest
does not match. -/
def execHex (s : List Char) : Option (List Char × List Char × List Char) :=
  match s with
  | '#' :: rest =>
    match matchGroups rest with
    | some m => some m
    | none => matchGroups s
  | _ => matchGroups s

/-- Source function `hexToRgb`. -/
def hexToRgb (hex : String) : Color :=
  match execHex hex.data with
  | some (r, g, b) => { r := parseInt16 r, g := parseInt16 g, b := parseInt16 b }
  | none => { r := 0, g := 0, b := 0 }

/-! ## The duotone pass -/

/-- The value `gray` of the loop body: `0.3 * r + 0.59 * g + 0.11 * b`. -/
def gray (r g b : ℕ) : ℚ :=
  fl (fl (fl (fl (3 / 10) * r) + fl (fl (59 / 100) * g)) + fl (fl (11 / 100) * b))

/-- The value `t` of the loop body: `gray / 255`. -/
def normT (r g b : ℕ) : ℚ := fl (gray r g b / 255)

/-- The expression `c1 * (1 - t) + c2 * t` for one channel. -/
def mix (c1 c2 : ℕ) (t : ℚ) : ℚ :=
  fl (fl ((c1 : ℚ) * fl (1 - t)) + fl ((c2 : ℚ) * t))

/-- The value `Math.round(c1 * (1 - t) + c2 * t)` before it is stored. -/
def duotoneValue (c1 c2 : ℕ) (t : ℚ) : ℤ := mathRound (mix c1 c2 t)

/-- The two stores into one channel of `data`: the rounded interpolation and,
when `isInverted`, `255 - data[i]` read back from the array. -/
def duotoneChannel (c1 c2 : ℕ) (isInverted : Bool) (t : ℚ) : ℕ :=
  let d := toUint8Clamp (duotoneValue c1 c2 t)
  if isInverted then toUint8Clamp (fl (255 - (d : ℚ))) else d

/-- One iteration of the duotone loop on the channels `r`, `g`, `b`. -/
def duotoneStep (color1 color2 : Color) (isInverted : Bool) (r g b : ℕ) : ℕ × ℕ × ℕ :=
  let t := normT r g b
  (duotoneChannel color1.r color2.r isInverted t,
   duotoneChannel color1.g color2.g isInverted t,
   duotoneChannel color1.b color2.b isInverted t)

/-- The loop `for (let i = 0; i < data.length; i += 4)` of `applyDuotoneEffect`
over the bytes of an image (a multiple of four of them); alpha is not
assigned. -/
def duotoneLoop (color1 color2 : Color) (isInverted : Bool) : List ℕ → List ℕ
  | r :: g :: b :: a :: rest =>
    (duotoneStep color1 color2 isInverted r g b).1 ::
    (duotoneStep color1 color2 isInverted r g b).2.1 ::
    (duotoneStep color1 color2 isInverted r g b).2.2 ::
    a :: duotoneLoop color1 color2 isInverted rest
  | rest => rest

/-! ## The grain pass -/

/-- The value `intensity`: `amount / 100 * 50`. -/
def grainIntensity (amount : ℤ) : ℚ := fl (fl ((amount : ℚ) / 100) * 50)

/-- The value `noise`: `(Math.random() - 0.5) * intensity`, for the sample `u`. -/
def grainNoise (u intensity : ℚ) : ℚ := fl (fl (u - 1 / 2) * intensity)

/-- One store of the grain loop: `data[i] = clamp(data[i] + noise, 0, 255)`. -/
def grainChannel (x : ℕ) (noise : ℚ) : ℕ :=
  toUint8Clamp (clamp (fl ((x : ℚ) + noise)) 0 255)

/-- The loop of `applyGrainEffect`; `random k` is the value returned by the call
of `Math.random()` in iteration `k`. -/
def grainLoop (intensity : ℚ) (random : ℕ → ℚ) : ℕ → List ℕ → List ℕ
  | k, r :: g :: b :: a :: rest =>
    grainChannel r (grainNoise (random k) intensity) ::
    grainChannel g (grainNoise (random k) intensity) ::
    grainChannel b (grainNoise (random k) intensity) ::
    a :: grainLoop intensity random (k + 1) rest
  | _, rest => rest

/-! ## Program state -/

/-- An `ImageData` object: its `data` is a reference to a `Uint8ClampedArray`. -/
structure ImageData where
  data : ℕ
  width : ℕ
  height : ℕ
  deriving DecidableEq, Repr

/-- Exceptions raised by the `ImageData` constructor of the host. -/
inductive DOMException where
  | invalidStateError
  | indexSizeError
  deriving DecidableEq, Repr

/-- A `File`, of which the program reads the field `type`. -/
structure File where
  type : String
  deriving DecidableEq, Repr

/-- The globals of `script.js`, the typed arrays allocated so far (a reference
is an index into `heap`), the bitmap of the preview canvas, and the effects on
the host: alerts shown and file reads started.  The canvas has the size of the
loaded image (it is resized on load) and is taken to hold exactly the bytes
last put on it. -/
structure State where
  heap : List (List ℕ)
  originalImageData : Option ImageData
  isInverted : Bool
  grainAmount : ℤ
  canvas : List ℕ
  alerts : List String
  reads : List File

/-- What a handler reads from the page when it runs: the values of the two
colour inputs and the values returned by `Math.random()`. -/
structure Env where
  color1 : String
  color2 : String
  random : ℕ → ℚ

/-- Validation done by `new ImageData(data, sw, sh)` on an array of `len`
bytes: the length is a nonzero multiple of four and matches `sw` by `sh`. -/
def checkImageData (len sw sh : ℕ) : Option DOMException :=
  if len = 0 ∨ len % 4 ≠ 0 then some DOMException.invalidStateError
  else if sw = 0 ∨ (len / 4) % sw ≠ 0 then some DOMException.indexSizeError
  else if sh ≠ len / 4 / sw then some DOMException.indexSizeError
  else none

/-- Source function `applyGrainEffect`: `getImageData` copies the canvas into a
fresh array, the loop writes to that array, `putImageData` copies it back. -/
def applyGrainEffect (env : Env) (amount : ℤ) (st : State) : State :=
  let addr := st.heap.length
  let heap1 := st.heap ++ [st.canvas]
  let intensity := grainIntensity amount
  let heap2 := heap1.set addr (grainLoop intensity env.random 0 (heap1.getD addr []))
  { st with heap := heap2, canvas := heap2.getD addr [] }

/-- Source function `applyDuotoneEffect`.  The result carries the exception
thrown, if any; a call that throws leaves the state as it was. -/
def applyDuotoneEffect (env : Env) (st : State) : State × Option DOMException :=
  match st.originalImageData with
  | none => (st, none)
  | some src =>
    let color1 := hexToRgb env.color1
    let color2 := hexToRgb env.color2
    let addr := st.heap.length
    let heap1 := st.heap ++ [st.heap.getD src.data []]
    match checkImageData (heap1.getD addr []).length src.width src.height with
    | some e => (st, some e)
    | none =>
      let heap2 := heap1.set addr (duotoneLoop color1 color2 st.isInverted (heap1.getD addr []))
      let st2 := { st with heap := heap2, canvas := heap2.getD addr [] }
      if st.grainAmount > 0 then (applyGrainEffect env st.grainAmount st2, none)
      else (st2, none)

/-- Source function `toggleInvert`. -/
def toggleInvert (env : Env) (st : State) : State × Option DOMException :=
  applyDuotoneEffect env { st with isInverted := !st.isInverted }

/-- Source function `updateGrainValue`; `value` is `parseInt(grainSlider.value)`. -/
def updateGrainValue (env : Env) (value : ℤ) (st : State) : State × Option DOMException :=
  applyDuotoneEffect env { st with grainAmount := value }

/-- Whether `pat` starts `s`. -/
def startsWith (pat s : List Char) : Bool :=
  match pat, s with
  | [], _ => true
  | _ :: _, [] => false
  | p :: ps, c :: cs => p == c && startsWith ps cs

/-- The call `type.match('image.*')`: the pattern is not anchored, so it is
found when `image` occurs at some position of `type`. -/
def matchImage : List Char → Bool
  | [] => false
  | c :: cs => startsWith "image".data (c :: cs) || matchImage cs

/-- Source function `processImage`, up to the start of the read (the handlers
of the reader run later). -/
def processImage (file : File) (st : State) : State :=
  if !matchImage file.type.data then
    { st with alerts := st.alerts ++ ["Please upload an image file"] }
  else
    { st with reads := st.reads ++ [file] }

/-- A handler call on the pipeline together with what it reads. -/
inductive Call where
  | applyDuotoneEffect (env : Env)
  | toggleInvert (env : Env)
  | updateGrainValue (env : Env) (value : ℤ)

/-- State after one handler call. -/
def Call.run (st : State) : Call → State
  | Call.applyDuotoneEffect env => (Kreatone.applyDuotoneEffect env st).1
  | Call.toggleInvert env => (Kreatone.toggleInvert env st).1
  | Call.updateGrainValue env value => (Kreatone.updateGrainValue env value st).1

/-- State after a sequence of handler calls. -/
def runCalls (st : State) (calls : List Call) : State :=
  calls.foldl Call.run st

/-- Pixel number `k` of a byte buffer, when the buffer has one. -/
def pixelAt (data : List ℕ) (k : ℕ) : Option (ℕ × ℕ × ℕ × ℕ) :=
  match data[4 * k]?, data[4 * k + 1]?, data[4 * k + 2]?, data[4 * k + 3]? with
  | some r, some g, some b, some a => some (r, g, b, a)
  | _, _, _, _ => none

/-- A session in which an image is loaded: `originalImageData` refers to the
array `data` of bytes, of the size of the image. -/
structure Loaded (st : State) (src : ImageData) (data : List ℕ) : Prop where
  source : st.originalImageData = some src
  stored : st.heap[src.data]? = some data
  size : data.length = 4 * (src.width * src.height)
  nonempty : 0 < src.width * src.height
  bytes : ∀ x ∈ data, x ≤ 255

/-! ## Exact reference values and the error unit -/

/-- Half a unit in the last place for doubles below 512: the bound of `fl_near`. -/
def ulp : ℚ := 1 / 35184372088832

/-- Exact luma of a pixel: `0.3 R + 0.59 G + 0.11 B` over the rationals. -/
def exactLuma (r g b : ℕ) : ℚ := 3 / 10 * r + 59 / 100 * g + 11 / 100 * b

/-- Exact interpolation `c1 (1 - t) + c2 t` at `t = luma / 255`. -/
def exactMix (c1 c2 : ℕ) (r g b : ℕ) : ℚ :=
  (c1 : ℚ) * (1 - exactLuma r g b / 255) + (c2 : ℚ) * (exactLuma r g b / 255)


/-- A channel value lies between the two colour components, whichever is the
larger. -/
def ChannelBetween (c1 c2 x : ℕ) : Prop := min c1 c2 ≤ x ∧ x ≤ max c1 c2

/-- Channel values `p`, `q` of two pixels are ordered like the two colour
components: increasing when `c1 ≤ c2`, decreasing when `c2 ≤ c1`. -/
def ChannelOrdered (c1 c2 p q : ℕ) : Prop := (c1 ≤ c2 → p ≤ q) ∧ (c2 ≤ c1 → q ≤ p)

/-! ## A concrete session -/

/-- Bytes of a one-pixel image. -/
def exampleData : List ℕ := [0, 201, 81, 255]

/-- The `ImageData` of the one-pixel image, its array at address `0`. -/
def exampleSource : ImageData := { data := 0, width := 1, height := 1 }

/-- A session in which the one-pixel image is loaded. -/
def exampleState : State :=
  { heap := [exampleData], originalImageData := some exampleSource, isInverted := false,
    grainAmount := 0, canvas := exampleData, alerts := [], reads := [] }

/-- Colour inputs `#000000` and `#010101`, every random sample `0.75`. -/
def exampleEnv : Env := { color1 := "#000000", color2 := "#010101", random := fun _ => 3 / 4 }

/-! # Theorems -/


/-! ## Rounding to a double: error bounds -/

theorem pow2_eq_zpow (e : ℤ) : pow2 e = (2 : ℚ) ^ e := by
  cases e with
  | ofNat n =>
    show ((2 ^ n : ℕ) : ℚ) = (2 : ℚ) ^ (Int.ofNat n)
    rw [Int.ofNat_eq_coe, zpow_natCast]
    push_cast
    rfl
  | negSucc n =>
    show 1 / ((2 ^ (n + 1) : ℕ) : ℚ) = (2 : ℚ) ^ (Int.negSucc n)
    rw [zpow_negSucc]
    push_cast
    rw [one_div]

theorem pow2_pos (e : ℤ) : 0 < pow2 e := by
  rw [pow2_eq_zpow]
  exact zpow_pos (by norm_num) e

theorem roundHalfEven_err (x : ℚ) : |((roundHalfEven x : ℤ) : ℚ) - x| ≤ 1 / 2 := by
  have h1 : ((⌊x⌋ : ℤ) : ℚ) ≤ x := Int.floor_le x
  have h2 : x < ((⌊x⌋ : ℤ) : ℚ) + 1 := Int.lt_floor_add_one x
  unfold roundHalfEven
  simp only []
  rw [abs_le]
  split_ifs with ha hb hc
  · constructor <;> linarith
  · push_cast
    constructor <;> linarith
  · have : x - ((⌊x⌋ : ℤ) : ℚ) = 1 / 2 := le_antisymm (not_lt.mp hb) (not_lt.mp ha)
    constructor <;> linarith
  · have : x - ((⌊x⌋ : ℤ) : ℚ) = 1 / 2 := le_antisymm (not_lt.mp hb) (not_lt.mp ha)
    push_cast
    constructor <;> linarith

theorem log2Fuel_spec (fuel : ℕ) : ∀ n : ℕ, n ≤ fuel → n ≠ 0 →
    2 ^ log2Fuel fuel n ≤ n ∧ n < 2 ^ (log2Fuel fuel n + 1) := by
  induction fuel with
  | zero =>
    intro n hn h0
    exact absurd (Nat.le_zero.mp hn) h0
  | succ f ih =>
    intro n hn h0
    unfold log2Fuel
    by_cases h2 : 2 ≤ n
    · rw [if_pos h2]
      have hdiv : n / 2 ≤ f := by omega
      have hne : n / 2 ≠ 0 := by omega
      obtain ⟨ha, hb⟩ := ih (n / 2) hdiv hne
      constructor
      · rw [pow_succ]; omega
      · rw [pow_succ]; omega
    · rw [if_neg h2]
      constructor
      · simp; omega
      · simp; omega

theorem natLog2_spec (n : ℕ) (h0 : n ≠ 0) :
    2 ^ natLog2 n ≤ n ∧ n < 2 ^ (natLog2 n + 1) :=
  log2Fuel_spec n n le_rfl h0

theorem abs_eq_natAbs_div (x : ℚ) : |x| = (x.num.natAbs : ℚ) / (x.den : ℚ) := by
  have hd : (0 : ℚ) < x.den := by exact_mod_cast x.den_pos
  conv_lhs => rw [← Rat.num_div_den x]
  rw [abs_div, abs_of_pos hd, ← Int.cast_abs, Int.abs_eq_natAbs, Int.cast_natCast]

/-- The exponent found by `ilog2` is the binary exponent of `|x|`. -/
theorem ilog2_spec (x : ℚ) (hx : x ≠ 0) :
    (2 : ℚ) ^ ilog2 x ≤ |x| ∧ |x| < (2 : ℚ) ^ (ilog2 x + 1) := by
  have hn0 : x.num.natAbs ≠ 0 := by
    simpa [Int.natAbs_eq_zero] using hx
  have hd0 : x.den ≠ 0 := x.den_nz
  obtain ⟨na, nb⟩ := natLog2_spec _ hn0
  obtain ⟨da, db⟩ := natLog2_spec _ hd0
  have hdpos : (0 : ℚ) < x.den := by exact_mod_cast x.den_pos
  have na' : (2 : ℚ) ^ (natLog2 x.num.natAbs) ≤ (x.num.natAbs : ℚ) := by exact_mod_cast na
  have nb' : (x.num.natAbs : ℚ) < (2 : ℚ) ^ (natLog2 x.num.natAbs + 1) := by exact_mod_cast nb
  have da' : (2 : ℚ) ^ (natLog2 x.den) ≤ (x.den : ℚ) := by exact_mod_cast da
  have db' : (x.den : ℚ) < (2 : ℚ) ^ (natLog2 x.den + 1) := by exact_mod_cast db
  have habs := abs_eq_natAbs_div x
  have p2 : ∀ m : ℕ, (0 : ℚ) < (2 : ℚ) ^ m := fun m => pow_pos (by norm_num) m
  have two_ne : (2 : ℚ) ≠ 0 := by norm_num
  -- the quotient lies strictly between 2^(k-1) and 2^(k+1)
  have hlow : (2 : ℚ) ^ ((natLog2 x.num.natAbs : ℤ) - (natLog2 x.den : ℤ) - 1) < |x| := by
    rw [habs, lt_div_iff₀ hdpos, sub_sub, zpow_sub₀ two_ne, zpow_natCast]
    have : ((2 : ℚ) ^ ((natLog2 x.den : ℤ) + 1)) = (2 : ℚ) ^ (natLog2 x.den + 1) := by
      rw [← zpow_natCast]; push_cast; rfl
    rw [this, div_mul_eq_mul_div, div_lt_iff₀ (p2 _)]
    calc (2 : ℚ) ^ natLog2 x.num.natAbs * (x.den : ℚ)
        < (2 : ℚ) ^ natLog2 x.num.natAbs * (2 : ℚ) ^ (natLog2 x.den + 1) :=
          mul_lt_mul_of_pos_left db' (p2 _)
      _ ≤ (x.num.natAbs : ℚ) * (2 : ℚ) ^ (natLog2 x.den + 1) :=
          mul_le_mul_of_nonneg_right na' (le_of_lt (p2 _))
  have hhigh : |x| < (2 : ℚ) ^ ((natLog2 x.num.natAbs : ℤ) - (natLog2 x.den : ℤ) + 1) := by
    rw [habs, div_lt_iff₀ hdpos]
    have : ((natLog2 x.num.natAbs : ℤ) - (natLog2 x.den : ℤ) + 1)
        = ((natLog2 x.num.natAbs + 1 : ℕ) : ℤ) - (natLog2 x.den : ℤ) := by push_cast; ring
    rw [this, zpow_sub₀ two_ne, zpow_natCast, zpow_natCast, div_mul_eq_mul_div,
      lt_div_iff₀ (p2 _)]
    calc (x.num.natAbs : ℚ) * (2 : ℚ) ^ natLog2 x.den
        < (2 : ℚ) ^ (natLog2 x.num.natAbs + 1) * (2 : ℚ) ^ natLog2 x.den :=
          mul_lt_mul_of_pos_right nb' (p2 _)
      _ ≤ (2 : ℚ) ^ (natLog2 x.num.natAbs + 1) * (x.den : ℚ) :=
          mul_le_mul_of_nonneg_left da' (le_of_lt (p2 _))
  unfold ilog2
  simp only []
  rw [pow2_eq_zpow]
  split_ifs with h
  · exact ⟨h, hhigh⟩
  · refine ⟨le_of_lt hlow, ?_⟩
    rw [sub_add_cancel]
    exact not_le.mp h

/-- Rounding to a double moves a value below `2 ^ (K + 1)` in absolute value by
at most half a unit in the last place of that binade. -/
theorem fl_err (x : ℚ) (K : ℤ) (hK : -1022 ≤ K) (hx : |x| < (2 : ℚ) ^ (K + 1)) :
    |fl x - x| ≤ (2 : ℚ) ^ (K - 53) := by
  unfold fl
  by_cases h0 : x = 0
  · rw [if_pos h0, h0]
    simp only [sub_zero, abs_zero]
    exact le_of_lt (zpow_pos (by norm_num) _)
  · rw [if_neg h0]
    simp only []
    obtain ⟨hl, -⟩ := ilog2_spec x h0
    have hlog : ilog2 x ≤ K := by
      have := lt_of_le_of_lt hl hx
      rw [zpow_lt_zpow_iff_right₀ (by norm_num : (1 : ℚ) < 2)] at this
      omega
    have he : max (ilog2 x) (-1022) - 52 ≤ K - 52 := by
      have : max (ilog2 x) (-1022) ≤ K := max_le hlog hK
      omega
    set e := max (ilog2 x) (-1022) - 52 with hedef
    have hp := pow2_pos e
    have hr := roundHalfEven_err (x / pow2 e)
    have key : ((roundHalfEven (x / pow2 e) : ℤ) : ℚ) * pow2 e - x
        = (((roundHalfEven (x / pow2 e) : ℤ) : ℚ) - x / pow2 e) * pow2 e := by
      field_simp
    rw [key, abs_mul, abs_of_pos hp]
    calc |((roundHalfEven (x / pow2 e) : ℤ) : ℚ) - x / pow2 e| * pow2 e
        ≤ 1 / 2 * pow2 e := mul_le_mul_of_nonneg_right hr (le_of_lt hp)
      _ = (2 : ℚ) ^ (e - 1) := by
          rw [pow2_eq_zpow, zpow_sub_one₀ (by norm_num : (2 : ℚ) ≠ 0)]; ring
      _ ≤ (2 : ℚ) ^ (K - 53) := zpow_le_zpow_right₀ (by norm_num) (by omega)

/-- Bound used throughout: below 512 the rounding error is at most `2 ^ (-45)`. -/
theorem fl_near (x : ℚ) (hx : |x| ≤ 511) : |fl x - x| ≤ 1 / 35184372088832 := by
  have h := fl_err x 8 (by norm_num) (lt_of_le_of_lt hx (by norm_num))
  have e : (2 : ℚ) ^ ((8 : ℤ) - 53) = 1 / 35184372088832 := by
    rw [show ((8 : ℤ) - 53) = -45 by norm_num, zpow_neg]
    norm_num
  rw [e] at h
  exact h


/-! ## Rounding to an integer -/

theorem mathRound_le (x : ℚ) : ((mathRound x : ℤ) : ℚ) ≤ x + 1 / 2 := Int.floor_le _

theorem lt_mathRound (x : ℚ) : x - 1 / 2 < ((mathRound x : ℤ) : ℚ) := by
  have := Int.lt_floor_add_one (x + 1 / 2)
  unfold mathRound
  linarith

theorem mathRound_mono {x y : ℚ} (h : x ≤ y) : mathRound x ≤ mathRound y :=
  Int.floor_mono (by linarith)

theorem mathRound_eq_of_near (x : ℚ) (m : ℤ) (h : |x - m| < 1 / 2) : mathRound x = m := by
  rw [abs_lt] at h
  unfold mathRound
  rw [Int.floor_eq_iff]
  constructor <;> linarith [h.1, h.2]

theorem roundHalfEven_eq_of_near (x : ℚ) (m : ℤ) (h : |x - m| < 1 / 2) :
    roundHalfEven x = m := by
  have he := roundHalfEven_err x
  rw [abs_lt] at h
  rw [abs_le] at he
  have h1 : ((roundHalfEven x : ℤ) : ℚ) < (m : ℚ) + 1 := by linarith [h.1, h.2, he.1, he.2]
  have h2 : (m : ℚ) - 1 < ((roundHalfEven x : ℤ) : ℚ) := by linarith [h.1, h.2, he.1, he.2]
  have h1' : roundHalfEven x < m + 1 := by exact_mod_cast h1
  have h2' : m - 1 < roundHalfEven x := by exact_mod_cast h2
  omega

theorem toUint8Clamp_eq_of_near (x : ℚ) (n : ℕ) (hn : n ≤ 255) (h : |x - n| < 1 / 2) :
    toUint8Clamp x = n := by
  have hn' : (n : ℚ) ≤ 255 := by exact_mod_cast hn
  have hn0 : (0 : ℚ) ≤ n := Nat.cast_nonneg n
  rw [abs_lt] at h
  have hc : |min (max x 0) 255 - ((n : ℤ) : ℚ)| < 1 / 2 := by
    rw [abs_lt]
    push_cast
    constructor
    · have : (n : ℚ) - 1 / 2 < min (max x 0) 255 := by
        rw [lt_min_iff]
        exact ⟨lt_of_lt_of_le (by linarith [h.1]) (le_max_left _ _), by linarith⟩
      linarith
    · have : min (max x 0) 255 ≤ max x 0 := min_le_left _ _
      have h2 : max x 0 < (n : ℚ) + 1 / 2 := max_lt (by linarith [h.2]) (by linarith)
      linarith
  unfold toUint8Clamp
  rw [roundHalfEven_eq_of_near _ _ hc]
  simp

theorem toUint8Clamp_nat (n : ℕ) (hn : n ≤ 255) : toUint8Clamp (n : ℚ) = n :=
  toUint8Clamp_eq_of_near _ n hn (by simp)

theorem toUint8Clamp_le (x : ℚ) : toUint8Clamp x ≤ 255 := by
  have he := roundHalfEven_err (min (max x 0) 255)
  rw [abs_le] at he
  have h1 : min (max x 0) 255 ≤ 255 := min_le_right _ _
  have h2 : ((roundHalfEven (min (max x 0) 255) : ℤ) : ℚ) < 256 := by linarith [he.2]
  have h3 : roundHalfEven (min (max x 0) 255) < 256 := by exact_mod_cast h2
  unfold toUint8Clamp
  omega

/-! ## Accumulated rounding error of the duotone expression -/

theorem fl_close {x X c M : ℚ} (h : |x - X| ≤ c) (hlo : -M ≤ X) (hhi : X ≤ M)
    (hM : M + c ≤ 511) : |fl x - X| ≤ c + ulp := by
  have hx : |x| ≤ 511 := by
    rw [abs_le] at h ⊢
    constructor <;> linarith [h.1, h.2]
  have hf := fl_near x hx
  have := abs_sub_le (fl x) x X
  unfold ulp
  linarith

theorem add_close {a A b B ca cb : ℚ} (ha : |a - A| ≤ ca) (hb : |b - B| ≤ cb) :
    |(a + b) - (A + B)| ≤ ca + cb := by
  rw [abs_le] at ha hb ⊢
  constructor <;> linarith [ha.1, ha.2, hb.1, hb.2]

theorem scale_close {x X c : ℚ} (n : ℕ) (hn : n ≤ 255) (h : |x - X| ≤ c) :
    |(n : ℚ) * x - (n : ℚ) * X| ≤ 255 * c := by
  have hn' : (n : ℚ) ≤ 255 := by exact_mod_cast hn
  have hn0 : (0 : ℚ) ≤ n := Nat.cast_nonneg n
  have hc : 0 ≤ c := le_trans (abs_nonneg _) h
  rw [← mul_sub, abs_mul, abs_of_nonneg hn0]
  exact mul_le_mul hn' h (abs_nonneg _) (by norm_num)

theorem exactLuma_bounds (r g b : ℕ) (hr : r ≤ 255) (hg : g ≤ 255) (hb : b ≤ 255) :
    0 ≤ exactLuma r g b ∧ exactLuma r g b ≤ 255 := by
  have hr' : (r : ℚ) ≤ 255 := by exact_mod_cast hr
  have hg' : (g : ℚ) ≤ 255 := by exact_mod_cast hg
  have hb' : (b : ℚ) ≤ 255 := by exact_mod_cast hb
  have hr0 : (0 : ℚ) ≤ r := Nat.cast_nonneg r
  have hg0 : (0 : ℚ) ≤ g := Nat.cast_nonneg g
  have hb0 : (0 : ℚ) ≤ b := Nat.cast_nonneg b
  unfold exactLuma
  constructor <;> linarith

theorem coeff_close (q : ℚ) (n : ℕ) (hn : n ≤ 255) (hq0 : 0 ≤ q) (hq1 : q ≤ 1) :
    |fl (fl q * n) - q * n| ≤ 256 * ulp := by
  have hn' : (n : ℚ) ≤ 255 := by exact_mod_cast hn
  have hn0 : (0 : ℚ) ≤ n := Nat.cast_nonneg n
  have h1 : |fl q - q| ≤ 0 + ulp :=
    fl_close (x := q) (X := q) (c := 0) (M := 1) (by simp) (by linarith) hq1 (by norm_num)
  rw [zero_add] at h1
  have h2 : |fl q * n - q * n| ≤ 255 * ulp := by
    have := scale_close n hn h1
    rwa [mul_comm (n : ℚ) (fl q), mul_comm (n : ℚ) q] at this
  have h3 := fl_close (M := 255) h2 (by nlinarith) (by nlinarith) (by unfold ulp; norm_num)
  linarith

theorem gray_close (r g b : ℕ) (hr : r ≤ 255) (hg : g ≤ 255) (hb : b ≤ 255) :
    |gray r g b - exactLuma r g b| ≤ 770 * ulp := by
  have hr' : (r : ℚ) ≤ 255 := by exact_mod_cast hr
  have hg' : (g : ℚ) ≤ 255 := by exact_mod_cast hg
  have hb' : (b : ℚ) ≤ 255 := by exact_mod_cast hb
  have hr0 : (0 : ℚ) ≤ r := Nat.cast_nonneg r
  have hg0 : (0 : ℚ) ≤ g := Nat.cast_nonneg g
  have hb0 : (0 : ℚ) ≤ b := Nat.cast_nonneg b
  have h1 := coeff_close (3 / 10) r hr (by norm_num) (by norm_num)
  have h2 := coeff_close (59 / 100) g hg (by norm_num) (by norm_num)
  have h3 := coeff_close (11 / 100) b hb (by norm_num) (by norm_num)
  have h12 := fl_close (M := 255) (add_close h1 h2) (by linarith) (by linarith)
    (by unfold ulp; norm_num)
  have h123 := fl_close (M := 255) (add_close h12 h3) (by linarith) (by linarith)
    (by unfold ulp; norm_num)
  unfold gray exactLuma
  linarith

theorem normT_close (r g b : ℕ) (hr : r ≤ 255) (hg : g ≤ 255) (hb : b ≤ 255) :
    |normT r g b - exactLuma r g b / 255| ≤ 5 * ulp := by
  have hg1 := gray_close r g b hr hg hb
  obtain ⟨l0, l1⟩ := exactLuma_bounds r g b hr hg hb
  have hu : (0 : ℚ) < ulp := by unfold ulp; norm_num
  have hd : |gray r g b / 255 - exactLuma r g b / 255| ≤ 4 * ulp := by
    rw [← sub_div, abs_div, abs_of_pos (by norm_num : (0 : ℚ) < 255), div_le_iff₀ (by norm_num)]
    linarith
  have := fl_close (M := 1) hd (by linarith [div_nonneg l0 (by norm_num : (0 : ℚ) ≤ 255)])
    (by rw [div_le_iff₀ (by norm_num)]; linarith) (by unfold ulp; norm_num)
  unfold normT
  linarith

/-- The double computed for `c1 * (1 - t) + c2 * t` is within `2808` half-ulps
(less than `10⁻¹⁰`) of the exact interpolation. -/
theorem mix_close (c1 c2 r g b : ℕ) (h1 : c1 ≤ 255) (h2 : c2 ≤ 255)
    (hr : r ≤ 255) (hg : g ≤ 255) (hb : b ≤ 255) :
    |mix c1 c2 (normT r g b) - exactMix c1 c2 r g b| ≤ 2808 * ulp := by
  have ht := normT_close r g b hr hg hb
  obtain ⟨l0, l1⟩ := exactLuma_bounds r g b hr hg hb
  have hT0 : 0 ≤ exactLuma r g b / 255 := div_nonneg l0 (by norm_num)
  have hT1 : exactLuma r g b / 255 ≤ 1 := by rw [div_le_iff₀ (by norm_num)]; linarith
  have hc1 : (c1 : ℚ) ≤ 255 := by exact_mod_cast h1
  have hc2 : (c2 : ℚ) ≤ 255 := by exact_mod_cast h2
  have hc10 : (0 : ℚ) ≤ c1 := Nat.cast_nonneg c1
  have hc20 : (0 : ℚ) ≤ c2 := Nat.cast_nonneg c2
  have hs0 : |(1 - normT r g b) - (1 - exactLuma r g b / 255)| ≤ 5 * ulp := by
    rw [show (1 - normT r g b) - (1 - exactLuma r g b / 255)
        = -(normT r g b - exactLuma r g b / 255) by ring, abs_neg]
    exact ht
  have hs := fl_close (M := 1) hs0 (by linarith) (by linarith) (by unfold ulp; norm_num)
  have ha0 := scale_close c1 h1 hs
  have ha := fl_close (M := 255) ha0 (by nlinarith) (by nlinarith) (by unfold ulp; norm_num)
  have hb0 := scale_close c2 h2 ht
  have hb1 := fl_close (M := 255) hb0 (by nlinarith) (by nlinarith) (by unfold ulp; norm_num)
  have hsum := fl_close (M := 255) (add_close ha hb1) (by nlinarith) (by nlinarith)
    (by unfold ulp; norm_num)
  unfold mix exactMix
  linarith


/-! ## The loops, pixel by pixel -/

theorem pixelAt_zero (r g b a : ℕ) (rest : List ℕ) :
    pixelAt (r :: g :: b :: a :: rest) 0 = some (r, g, b, a) := by
  simp [pixelAt]

theorem pixelAt_succ (r g b a : ℕ) (rest : List ℕ) (k : ℕ) :
    pixelAt (r :: g :: b :: a :: rest) (k + 1) = pixelAt rest k := by
  unfold pixelAt
  have e0 : 4 * (k + 1) = 4 * k + 3 + 1 := by ring
  have e1 : 4 * (k + 1) + 1 = 4 * k + 1 + 3 + 1 := by ring
  have e2 : 4 * (k + 1) + 2 = 4 * k + 2 + 3 + 1 := by ring
  have e3 : 4 * (k + 1) + 3 = 4 * k + 3 + 3 + 1 := by ring
  rw [e3, e2, e1, e0]
  simp only [List.getElem?_cons_succ]

theorem pixelAt_short (data : List ℕ) (k : ℕ) (h : data.length < 4) :
    pixelAt data k = none := by
  unfold pixelAt
  have : data[4 * k + 3]? = none := List.getElem?_eq_none (by omega)
  rw [this]
  split <;> simp_all

theorem pixelAt_some_iff (data : List ℕ) (k : ℕ) :
    (∃ p, pixelAt data k = some p) ↔ 4 * k + 3 < data.length := by
  induction k generalizing data with
  | zero =>
    rcases data with _ | ⟨r, _ | ⟨g, _ | ⟨b, _ | ⟨a, rest⟩⟩⟩⟩
    · simp [pixelAt]
    · simp [pixelAt]
    · simp [pixelAt]
    · simp [pixelAt]
    · simp [pixelAt_zero]
  | succ k ih =>
    rcases data with _ | ⟨r, _ | ⟨g, _ | ⟨b, _ | ⟨a, rest⟩⟩⟩⟩
    · simp [pixelAt]
    · rw [pixelAt_short _ _ (by simp)]; simp
    · rw [pixelAt_short _ _ (by simp)]; simp
    · rw [pixelAt_short _ _ (by simp)]; simp
    · rw [pixelAt_succ, ih]
      simp only [List.length_cons]
      omega

theorem pixelAt_mem (data : List ℕ) (k : ℕ) (r g b a : ℕ)
    (h : pixelAt data k = some (r, g, b, a)) :
    r ∈ data ∧ g ∈ data ∧ b ∈ data ∧ a ∈ data := by
  unfold pixelAt at h
  split at h
  · rename_i r0 g0 b0 a0 h0 h1 h2 h3
    simp only [Option.some.injEq, Prod.mk.injEq] at h
    obtain ⟨rfl, rfl, rfl, rfl⟩ := h
    exact ⟨List.getElem?_mem h0, List.getElem?_mem h1, List.getElem?_mem h2,
      List.getElem?_mem h3⟩
  · exact Option.noConfusion h

theorem duotoneLoop_length (c1 c2 : Color) (inv : Bool) (n : ℕ) :
    ∀ data : List ℕ, data.length ≤ n → (duotoneLoop c1 c2 inv data).length = data.length := by
  induction n with
  | zero =>
    intro data h
    have : data = [] := List.length_eq_zero.mp (Nat.le_zero.mp h)
    subst this
    rfl
  | succ n ih =>
    intro data h
    rcases data with _ | ⟨r, _ | ⟨g, _ | ⟨b, _ | ⟨a, rest⟩⟩⟩⟩
    · rfl
    · rfl
    · rfl
    · rfl
    · simp only [duotoneLoop, List.length_cons]
      rw [ih rest (by simp only [List.length_cons] at h; omega)]

theorem duotoneLoop_pixel (c1 c2 : Color) (inv : Bool) (k : ℕ) :
    ∀ (data : List ℕ) (r g b a : ℕ), pixelAt data k = some (r, g, b, a) →
      pixelAt (duotoneLoop c1 c2 inv data) k
        = some ((duotoneStep c1 c2 inv r g b).1, (duotoneStep c1 c2 inv r g b).2.1,
            (duotoneStep c1 c2 inv r g b).2.2, a) := by
  induction k with
  | zero =>
    intro data r g b a h
    rcases data with _ | ⟨r0, _ | ⟨g0, _ | ⟨b0, _ | ⟨a0, rest⟩⟩⟩⟩
    · simp [pixelAt] at h
    · simp [pixelAt] at h
    · simp [pixelAt] at h
    · simp [pixelAt] at h
    · rw [pixelAt_zero] at h
      simp only [Option.some.injEq, Prod.mk.injEq] at h
      obtain ⟨rfl, rfl, rfl, rfl⟩ := h
      show pixelAt (_ :: _ :: _ :: _ :: _) 0 = _
      rw [pixelAt_zero]
  | succ k ih =>
    intro data r g b a h
    rcases data with _ | ⟨r0, _ | ⟨g0, _ | ⟨b0, _ | ⟨a0, rest⟩⟩⟩⟩
    · simp [pixelAt] at h
    · rw [pixelAt_short _ _ (by simp)] at h; exact Option.noConfusion h
    · rw [pixelAt_short _ _ (by simp)] at h; exact Option.noConfusion h
    · rw [pixelAt_short _ _ (by simp)] at h; exact Option.noConfusion h
    · rw [pixelAt_succ] at h
      show pixelAt (_ :: _ :: _ :: a0 :: duotoneLoop c1 c2 inv rest) (k + 1) = _
      rw [pixelAt_succ]
      exact ih rest r g b a h

theorem duotoneLoop_bytes (c1 c2 : Color) (inv : Bool) (n : ℕ) :
    ∀ data : List ℕ, data.length ≤ n → (∀ x ∈ data, x ≤ 255) →
      ∀ x ∈ duotoneLoop c1 c2 inv data, x ≤ 255 := by
  induction n with
  | zero =>
    intro data h hb
    have : data = [] := List.length_eq_zero.mp (Nat.le_zero.mp h)
    subst this
    exact hb
  | succ n ih =>
    intro data h hb
    rcases data with _ | ⟨r, _ | ⟨g, _ | ⟨b, _ | ⟨a, rest⟩⟩⟩⟩
    · exact hb
    · exact hb
    · exact hb
    · exact hb
    · intro x hx
      simp only [duotoneLoop, List.mem_cons] at hx
      have hd : ∀ (u v : ℕ) (t : ℚ), duotoneChannel u v inv t ≤ 255 := by
        intro u v t
        unfold duotoneChannel
        simp only []
        split_ifs
        · exact toUint8Clamp_le _
        · exact toUint8Clamp_le _
      rcases hx with rfl | rfl | rfl | rfl | hx
      · exact hd _ _ _
      · exact hd _ _ _
      · exact hd _ _ _
      · exact hb _ (by simp)
      · exact ih rest (by simp only [List.length_cons] at h; omega)
          (fun y hy => hb y (by simp [hy])) x hx

theorem grainLoop_length (intensity : ℚ) (random : ℕ → ℚ) (n : ℕ) :
    ∀ (j : ℕ) (data : List ℕ), data.length ≤ n →
      (grainLoop intensity random j data).length = data.length := by
  induction n with
  | zero =>
    intro j data h
    have : data = [] := List.length_eq_zero.mp (Nat.le_zero.mp h)
    subst this
    rfl
  | succ n ih =>
    intro j data h
    rcases data with _ | ⟨r, _ | ⟨g, _ | ⟨b, _ | ⟨a, rest⟩⟩⟩⟩
    · rfl
    · rfl
    · rfl
    · rfl
    · simp only [grainLoop, List.length_cons]
      rw [ih (j + 1) rest (by simp only [List.length_cons] at h; omega)]

theorem grainLoop_pixel (intensity : ℚ) (random : ℕ → ℚ) (k : ℕ) :
    ∀ (j : ℕ) (data : List ℕ) (r g b a : ℕ), pixelAt data k = some (r, g, b, a) →
      pixelAt (grainLoop intensity random j data) k
        = some (grainChannel r (grainNoise (random (j + k)) intensity),
            grainChannel g (grainNoise (random (j + k)) intensity),
            grainChannel b (grainNoise (random (j + k)) intensity), a) := by
  induction k with
  | zero =>
    intro j data r g b a h
    rcases data with _ | ⟨r0, _ | ⟨g0, _ | ⟨b0, _ | ⟨a0, rest⟩⟩⟩⟩
    · simp [pixelAt] at h
    · simp [pixelAt] at h
    · simp [pixelAt] at h
    · simp [pixelAt] at h
    · rw [pixelAt_zero] at h
      simp only [Option.some.injEq, Prod.mk.injEq] at h
      obtain ⟨rfl, rfl, rfl, rfl⟩ := h
      show pixelAt (_ :: _ :: _ :: _ :: _) 0 = _
      rw [pixelAt_zero]
      rfl
  | succ k ih =>
    intro j data r g b a h
    rcases data with _ | ⟨r0, _ | ⟨g0, _ | ⟨b0, _ | ⟨a0, rest⟩⟩⟩⟩
    · simp [pixelAt] at h
    · rw [pixelAt_short _ _ (by simp)] at h; exact Option.noConfusion h
    · rw [pixelAt_short _ _ (by simp)] at h; exact Option.noConfusion h
    · rw [pixelAt_short _ _ (by simp)] at h; exact Option.noConfusion h
    · rw [pixelAt_succ] at h
      show pixelAt (_ :: _ :: _ :: a0 :: grainLoop intensity random (j + 1) rest) (k + 1) = _
      rw [pixelAt_succ, ih (j + 1) rest r g b a h]
      rw [show j + 1 + k = j + (k + 1) by ring]

theorem grainLoop_bytes (intensity : ℚ) (random : ℕ → ℚ) (n : ℕ) :
    ∀ (j : ℕ) (data : List ℕ), data.length ≤ n → (∀ x ∈ data, x ≤ 255) →
      ∀ x ∈ grainLoop intensity random j data, x ≤ 255 := by
  induction n with
  | zero =>
    intro j data h hb
    have : data = [] := List.length_eq_zero.mp (Nat.le_zero.mp h)
    subst this
    exact hb
  | succ n ih =>
    intro j data h hb
    rcases data with _ | ⟨r, _ | ⟨g, _ | ⟨b, _ | ⟨a, rest⟩⟩⟩⟩
    · exact hb
    · exact hb
    · exact hb
    · exact hb
    · intro x hx
      simp only [grainLoop, List.mem_cons] at hx
      rcases hx with rfl | rfl | rfl | rfl | hx
      · exact toUint8Clamp_le _
      · exact toUint8Clamp_le _
      · exact toUint8Clamp_le _
      · exact hb _ (by simp)
      · exact ih (j + 1) rest (by simp only [List.length_cons] at h; omega)
          (fun y hy => hb y (by simp [hy])) x hx

/-! ## The colour parser -/


theorem char_le_iff (a b : Char) : a ≤ b ↔ a.toNat ≤ b.toNat := by
  rfl

theorem isHexDigit_iff (c : Char) :
    isHexDigit c = true ↔
      (48 ≤ c.toNat ∧ c.toNat ≤ 57) ∨ (97 ≤ c.toNat ∧ c.toNat ≤ 102) ∨
      (65 ≤ c.toNat ∧ c.toNat ≤ 70) := by
  unfold isHexDigit
  simp only [Bool.or_eq_true, Bool.and_eq_true, decide_eq_true_eq, char_le_iff]
  have e0 : ('0' : Char).toNat = 48 := rfl
  have e9 : ('9' : Char).toNat = 57 := rfl
  have ea : ('a' : Char).toNat = 97 := rfl
  have ef : ('f' : Char).toNat = 102 := rfl
  have eA : ('A' : Char).toNat = 65 := rfl
  have eF : ('F' : Char).toNat = 70 := rfl
  rw [e0, e9, ea, ef, eA, eF]
  tauto

theorem hexDigitValue_le (c : Char) (h : isHexDigit c = true) : hexDigitValue c ≤ 15 := by
  rw [isHexDigit_iff] at h
  unfold hexDigitValue
  simp only [char_le_iff]
  have e9 : ('9' : Char).toNat = 57 := rfl
  have eF : ('F' : Char).toNat = 70 := rfl
  rw [e9, eF]
  split_ifs <;> omega


/-- The characters of the class `[a-f\d]` under the flag `i`. -/
theorem isHexDigit_mem (c : Char) (h : isHexDigit c = true) :
    c ∈ "0123456789abcdefABCDEF".data := by
  rw [isHexDigit_iff] at h
  have hc : c = Char.ofNat c.toNat := (Char.ofNat_toNat c).symm
  generalize c.toNat = n at h hc
  subst hc
  rcases h with ⟨h1, h2⟩ | ⟨h1, h2⟩ | ⟨h1, h2⟩ <;> interval_cases n <;> decide

theorem hex_all (P : Char → Prop) [DecidablePred P]
    (hP : ∀ c ∈ "0123456789abcdefABCDEF".data, P c) (c : Char) (h : isHexDigit c = true) :
    P c :=
  hP c (isHexDigit_mem c h)

theorem hexDigit_ne_hash (c : Char) (h : isHexDigit c = true) : c ≠ '#' :=
  hex_all (fun c => c ≠ '#') (by decide) c h

theorem hexDigit_upper (c : Char) (h : isHexDigit c = true) :
    isHexDigit c.toUpper = true ∧ hexDigitValue c.toUpper = hexDigitValue c :=
  hex_all (fun c => isHexDigit c.toUpper = true ∧ hexDigitValue c.toUpper = hexDigitValue c)
    (by decide) c h

theorem hexDigit_lower (c : Char) (h : isHexDigit c = true) :
    isHexDigit c.toLower = true ∧ hexDigitValue c.toLower = hexDigitValue c :=
  hex_all (fun c => isHexDigit c.toLower = true ∧ hexDigitValue c.toLower = hexDigitValue c)
    (by decide) c h

theorem hexDigit_table (c : Char) (h : isHexDigit c = true) :
    "0123456789abcdef".data[hexDigitValue c]? = some c.toLower :=
  hex_all (fun c => "0123456789abcdef".data[hexDigitValue c]? = some c.toLower)
    (by decide) c h

theorem parseInt16_pair (a b : Char) (ha : isHexDigit a = true) (hb : isHexDigit b = true) :
    parseInt16 [a, b] = 16 * hexDigitValue a + hexDigitValue b := by
  simp [parseInt16, List.takeWhile, ha, hb]

theorem matchGroups_six (a b c d e f : Char) (ha : isHexDigit a = true)
    (hb : isHexDigit b = true) (hc : isHexDigit c = true) (hd : isHexDigit d = true)
    (he : isHexDigit e = true) (hf : isHexDigit f = true) :
    matchGroups [a, b, c, d, e, f] = some ([a, b], [c, d], [e, f]) := by
  simp [matchGroups, ha, hb, hc, hd, he, hf]

theorem matchGroups_some (s : List Char) (m : List Char × List Char × List Char)
    (h : matchGroups s = some m) :
    ∃ a b c d e f : Char, isHexDigit a = true ∧ isHexDigit b = true ∧ isHexDigit c = true ∧
      isHexDigit d = true ∧ isHexDigit e = true ∧ isHexDigit f = true ∧
      s = [a, b, c, d, e, f] := by
  unfold matchGroups at h
  split at h
  · rename_i a b c d e f
    split at h
    · rename_i hh
      simp only [Bool.and_eq_true] at hh
      obtain ⟨⟨⟨⟨⟨ha, hb⟩, hc⟩, hd⟩, he⟩, hf⟩ := hh
      exact ⟨a, b, c, d, e, f, ha, hb, hc, hd, he, hf, rfl⟩
    · exact Option.noConfusion h
  · exact Option.noConfusion h

theorem execHex_plain (a b c d e f : Char) (ha : isHexDigit a = true)
    (hb : isHexDigit b = true) (hc : isHexDigit c = true) (hd : isHexDigit d = true)
    (he : isHexDigit e = true) (hf : isHexDigit f = true) :
    execHex [a, b, c, d, e, f] = some ([a, b], [c, d], [e, f]) := by
  have hne := hexDigit_ne_hash a ha
  unfold execHex
  split
  · rename_i rest heq
    simp only [List.cons.injEq] at heq
    exact absurd heq.1 hne
  · exact matchGroups_six a b c d e f ha hb hc hd he hf

theorem execHex_hash (a b c d e f : Char) (ha : isHexDigit a = true)
    (hb : isHexDigit b = true) (hc : isHexDigit c = true) (hd : isHexDigit d = true)
    (he : isHexDigit e = true) (hf : isHexDigit f = true) :
    execHex ('#' :: [a, b, c, d, e, f]) = some ([a, b], [c, d], [e, f]) := by
  show (match matchGroups [a, b, c, d, e, f] with
    | some m => some m
    | none => matchGroups ('#' :: [a, b, c, d, e, f])) = _
  rw [matchGroups_six a b c d e f ha hb hc hd he hf]

theorem execHex_some (s : List Char) (m : List Char × List Char × List Char)
    (h : execHex s = some m) :
    ∃ a b c d e f : Char, isHexDigit a = true ∧ isHexDigit b = true ∧ isHexDigit c = true ∧
      isHexDigit d = true ∧ isHexDigit e = true ∧ isHexDigit f = true ∧
      (s = [a, b, c, d, e, f] ∨ s = '#' :: [a, b, c, d, e, f]) := by
  unfold execHex at h
  split at h
  · rename_i rest
    split at h
    · rename_i m0 hm
      obtain ⟨a, b, c, d, e, f, ha, hb, hc, hd, he, hf, rfl⟩ := matchGroups_some rest m0 hm
      exact ⟨a, b, c, d, e, f, ha, hb, hc, hd, he, hf, Or.inr rfl⟩
    · obtain ⟨a, b, c, d, e, f, ha, hb, hc, hd, he, hf, hs⟩ := matchGroups_some _ m h
      exact ⟨a, b, c, d, e, f, ha, hb, hc, hd, he, hf, Or.inl hs⟩
  · obtain ⟨a, b, c, d, e, f, ha, hb, hc, hd, he, hf, hs⟩ := matchGroups_some _ m h
    exact ⟨a, b, c, d, e, f, ha, hb, hc, hd, he, hf, Or.inl hs⟩

/-- Value of `hexToRgb` on a string that the expression matches. -/
theorem hexToRgb_match (s : String) (a b c d e f : Char) (ha : isHexDigit a = true)
    (hb : isHexDigit b = true) (hc : isHexDigit c = true) (hd : isHexDigit d = true)
    (he : isHexDigit e = true) (hf : isHexDigit f = true)
    (hs : s.data = [a, b, c, d, e, f] ∨ s.data = '#' :: [a, b, c, d, e, f]) :
    hexToRgb s = { r := 16 * hexDigitValue a + hexDigitValue b,
                   g := 16 * hexDigitValue c + hexDigitValue d,
                   b := 16 * hexDigitValue e + hexDigitValue f } := by
  have hx : execHex s.data = some ([a, b], [c, d], [e, f]) := by
    rcases hs with hs | hs
    · rw [hs]; exact execHex_plain a b c d e f ha hb hc hd he hf
    · rw [hs]; exact execHex_hash a b c d e f ha hb hc hd he hf
  unfold hexToRgb
  rw [hx]
  simp only [parseInt16_pair, ha, hb, hc, hd, he, hf]

/-- Every component returned by `hexToRgb` is a byte. -/
theorem hexToRgb_le (s : String) :
    (hexToRgb s).r ≤ 255 ∧ (hexToRgb s).g ≤ 255 ∧ (hexToRgb s).b ≤ 255 := by
  cases hx : execHex s.data with
  | none =>
    unfold hexToRgb
    rw [hx]
    exact ⟨by norm_num, by norm_num, by norm_num⟩
  | some m =>
    obtain ⟨a, b, c, d, e, f, ha, hb, hc, hd, he, hf, hs⟩ := execHex_some _ m hx
    rw [hexToRgb_match s a b c d e f ha hb hc hd he hf hs]
    have := hexDigitValue_le a ha
    have := hexDigitValue_le b hb
    have := hexDigitValue_le c hc
    have := hexDigitValue_le d hd
    have := hexDigitValue_le e he
    have := hexDigitValue_le f hf
    refine ⟨?_, ?_, ?_⟩ <;> simp only [] <;> omega



/-! ## Frame lemmas: what the handlers leave alone -/

/-- Writing to a freshly allocated array leaves every older array as it was. -/
theorem heap_alloc_set (heap : List (List ℕ)) (fresh new : List ℕ) (i : ℕ) (v : List ℕ)
    (h : heap[i]? = some v) :
    ((heap ++ [fresh]).set heap.length new)[i]? = some v := by
  have hi : i < heap.length := by
    by_contra hc
    rw [List.getElem?_eq_none (not_lt.mp hc)] at h
    exact Option.noConfusion h
  rw [List.getElem?_set_ne (Nat.ne_of_gt hi), List.getElem?_append_left hi]
  exact h

/-- The array written by a pass is the one it allocated. -/
theorem heap_alloc_get (heap : List (List ℕ)) (fresh new : List ℕ) :
    ((heap ++ [fresh]).set heap.length new).getD heap.length [] = new := by
  simp [List.getD_eq_getElem?_getD]

/-- The fresh array holds the copied bytes. -/
theorem heap_alloc_fresh (heap : List (List ℕ)) (fresh : List ℕ) :
    (heap ++ [fresh]).getD heap.length [] = fresh := by
  simp [List.getD_eq_getElem?_getD]

/-- The grain pass changes the canvas and allocates; nothing else. -/
theorem applyGrainEffect_frame (env : Env) (amount : ℤ) (st : State) :
    (applyGrainEffect env amount st).originalImageData = st.originalImageData ∧
    (applyGrainEffect env amount st).isInverted = st.isInverted ∧
    (applyGrainEffect env amount st).grainAmount = st.grainAmount ∧
    ∀ (i : ℕ) (v : List ℕ), st.heap[i]? = some v → (applyGrainEffect env amount st).heap[i]? = some v := by
  refine ⟨rfl, rfl, rfl, ?_⟩
  intro i v h
  exact heap_alloc_set st.heap _ _ i v h

/-- The state after `applyDuotoneEffect` is the old one, or the old one with a
new canvas and one array written at a fresh address, possibly followed by the
grain pass. -/
theorem applyDuotoneEffect_cases (env : Env) (st : State) :
    (applyDuotoneEffect env st).1 = st ∨
    ∃ fresh new cv : List ℕ,
      (applyDuotoneEffect env st).1
          = { st with heap := (st.heap ++ [fresh]).set st.heap.length new, canvas := cv } ∨
      (applyDuotoneEffect env st).1
          = applyGrainEffect env st.grainAmount
              { st with heap := (st.heap ++ [fresh]).set st.heap.length new, canvas := cv } := by
  unfold applyDuotoneEffect
  cases st.originalImageData with
  | none => exact Or.inl rfl
  | some src =>
    dsimp only
    cases checkImageData ((st.heap ++ [st.heap.getD src.data []]).getD st.heap.length []).length
        src.width src.height with
    | some e => exact Or.inl rfl
    | none =>
      right
      dsimp only
      by_cases hg : st.grainAmount > 0
      · rw [if_pos hg]
        exact ⟨_, _, _, Or.inr rfl⟩
      · rw [if_neg hg]
        exact ⟨_, _, _, Or.inl rfl⟩

/-- The duotone pass keeps the source reference and every array that existed
before the call. -/
theorem applyDuotoneEffect_frame (env : Env) (st : State) :
    (applyDuotoneEffect env st).1.originalImageData = st.originalImageData ∧
    ∀ (i : ℕ) (v : List ℕ), st.heap[i]? = some v →
      (applyDuotoneEffect env st).1.heap[i]? = some v := by
  rcases applyDuotoneEffect_cases env st with h | ⟨fresh, new, cv, h | h⟩
  · rw [h]
    exact ⟨rfl, fun _ _ hv => hv⟩
  · rw [h]
    exact ⟨rfl, fun i v hv => heap_alloc_set st.heap _ _ i v hv⟩
  · rw [h]
    obtain ⟨h1, -, -, h4⟩ := applyGrainEffect_frame env st.grainAmount
      { st with heap := (st.heap ++ [fresh]).set st.heap.length new, canvas := cv }
    exact ⟨h1, fun i v hv => h4 i v (heap_alloc_set st.heap _ _ i v hv)⟩

/-- One handler call keeps the source reference and the arrays that existed. -/
theorem Call.run_frame (st : State) (c : Call) :
    (c.run st).originalImageData = st.originalImageData ∧
    ∀ (i : ℕ) (v : List ℕ), st.heap[i]? = some v → (c.run st).heap[i]? = some v := by
  cases c with
  | applyDuotoneEffect env => exact applyDuotoneEffect_frame env st
  | toggleInvert env =>
    exact applyDuotoneEffect_frame env { st with isInverted := !st.isInverted }
  | updateGrainValue env value =>
    exact applyDuotoneEffect_frame env { st with grainAmount := value }


/-! ## One channel of the duotone pass -/

theorem fl_byte : ∀ n : ℕ, n < 256 → fl (n : ℚ) = n := by decide!

theorem ulp_small : 0 < ulp ∧ 2808 * ulp < 1 / 10000000000 := by
  unfold ulp
  constructor <;> norm_num

theorem exactMix_eq (c1 c2 r g b : ℕ) :
    exactMix c1 c2 r g b
      = (c1 : ℚ) + ((c2 : ℚ) - (c1 : ℚ)) * (exactLuma r g b / 255) := by
  unfold exactMix
  ring

/-- The exact interpolation lies between the two colours. -/
theorem exactMix_range (c1 c2 r g b : ℕ) (hr : r ≤ 255) (hg : g ≤ 255) (hb : b ≤ 255) :
    ((min c1 c2 : ℕ) : ℚ) ≤ exactMix c1 c2 r g b ∧
    exactMix c1 c2 r g b ≤ ((max c1 c2 : ℕ) : ℚ) := by
  obtain ⟨l0, l1⟩ := exactLuma_bounds r g b hr hg hb
  have hT0 : 0 ≤ exactLuma r g b / 255 := div_nonneg l0 (by norm_num)
  have hT1 : exactLuma r g b / 255 ≤ 1 := by rw [div_le_iff₀ (by norm_num)]; linarith
  rw [exactMix_eq]
  rcases le_total c1 c2 with h | h
  · have h' : (c1 : ℚ) ≤ c2 := by exact_mod_cast h
    rw [min_eq_left h, max_eq_right h]
    constructor <;> nlinarith
  · have h' : (c2 : ℚ) ≤ c1 := by exact_mod_cast h
    rw [min_eq_right h, max_eq_left h]
    constructor <;> nlinarith

/-- When the exact interpolation is within a quarter of an integer, the rounded
double is that integer. -/
theorem duotoneValue_eq_of_exact (c1 c2 r g b : ℕ) (h1 : c1 ≤ 255) (h2 : c2 ≤ 255)
    (hr : r ≤ 255) (hg : g ≤ 255) (hb : b ≤ 255) (m : ℤ)
    (h : |exactMix c1 c2 r g b - m| ≤ 1 / 4) :
    duotoneValue c1 c2 (normT r g b) = m := by
  have hc := mix_close c1 c2 r g b h1 h2 hr hg hb
  obtain ⟨-, hu⟩ := ulp_small
  unfold duotoneValue
  apply mathRound_eq_of_near
  have := abs_sub_le (mix c1 c2 (normT r g b)) (exactMix c1 c2 r g b) (m : ℚ)
  linarith

/-- The value rounded by `Math.round` lies between the two colours. -/
theorem duotoneValue_range (c1 c2 r g b : ℕ) (h1 : c1 ≤ 255) (h2 : c2 ≤ 255)
    (hr : r ≤ 255) (hg : g ≤ 255) (hb : b ≤ 255) :
    ((min c1 c2 : ℕ) : ℤ) ≤ duotoneValue c1 c2 (normT r g b) ∧
    duotoneValue c1 c2 (normT r g b) ≤ ((max c1 c2 : ℕ) : ℤ) := by
  have hc := mix_close c1 c2 r g b h1 h2 hr hg hb
  obtain ⟨-, hu⟩ := ulp_small
  obtain ⟨e0, e1⟩ := exactMix_range c1 c2 r g b hr hg hb
  rw [abs_le] at hc
  unfold duotoneValue
  constructor
  · have hm : mathRound (((min c1 c2 : ℕ) : ℚ) - 1 / 4) = ((min c1 c2 : ℕ) : ℤ) := by
      apply mathRound_eq_of_near
      rw [show (((min c1 c2 : ℕ) : ℚ) - 1 / 4) - (((min c1 c2 : ℕ) : ℤ) : ℚ) = -(1 / 4) by
        push_cast; ring]
      rw [abs_neg, abs_of_pos] <;> norm_num
    rw [← hm]
    exact mathRound_mono (by linarith [hc.1])
  · have hm : mathRound (((max c1 c2 : ℕ) : ℚ) + 1 / 4) = ((max c1 c2 : ℕ) : ℤ) := by
      apply mathRound_eq_of_near
      rw [show (((max c1 c2 : ℕ) : ℚ) + 1 / 4) - (((max c1 c2 : ℕ) : ℤ) : ℚ) = 1 / 4 by
        push_cast; ring]
      rw [abs_of_pos] <;> norm_num
    rw [← hm]
    exact mathRound_mono (by linarith [hc.2])

/-- The rounded double is at most one away from the rounded exact value. -/
theorem duotoneValue_near_exact (c1 c2 r g b : ℕ) (h1 : c1 ≤ 255) (h2 : c2 ≤ 255)
    (hr : r ≤ 255) (hg : g ≤ 255) (hb : b ≤ 255) :
    |duotoneValue c1 c2 (normT r g b) - mathRound (exactMix c1 c2 r g b)| ≤ 1 := by
  have hc := mix_close c1 c2 r g b h1 h2 hr hg hb
  obtain ⟨-, hu⟩ := ulp_small
  rw [abs_le] at hc
  have a1 := mathRound_le (mix c1 c2 (normT r g b))
  have a2 := lt_mathRound (mix c1 c2 (normT r g b))
  have b1 := mathRound_le (exactMix c1 c2 r g b)
  have b2 := lt_mathRound (exactMix c1 c2 r g b)
  unfold duotoneValue
  have u1 : ((mathRound (mix c1 c2 (normT r g b)) : ℤ) : ℚ)
      < ((mathRound (exactMix c1 c2 r g b) : ℤ) : ℚ) + 2 := by linarith [hc.1, hc.2]
  have u2 : ((mathRound (exactMix c1 c2 r g b) : ℤ) : ℚ)
      < ((mathRound (mix c1 c2 (normT r g b)) : ℤ) : ℚ) + 2 := by linarith [hc.1, hc.2]
  have u1' : mathRound (mix c1 c2 (normT r g b)) < mathRound (exactMix c1 c2 r g b) + 2 := by
    exact_mod_cast u1
  have u2' : mathRound (exactMix c1 c2 r g b) < mathRound (mix c1 c2 (normT r g b)) + 2 := by
    exact_mod_cast u2
  rw [abs_le]
  constructor <;> omega

/-- The store of the rounded value into the clamped array keeps it. -/
theorem stored_duotoneValue (c1 c2 r g b : ℕ) (h1 : c1 ≤ 255) (h2 : c2 ≤ 255)
    (hr : r ≤ 255) (hg : g ≤ 255) (hb : b ≤ 255) :
    ((toUint8Clamp (duotoneValue c1 c2 (normT r g b)) : ℕ) : ℤ)
      = duotoneValue c1 c2 (normT r g b) := by
  obtain ⟨l, u⟩ := duotoneValue_range c1 c2 r g b h1 h2 hr hg hb
  have hl : (0 : ℤ) ≤ duotoneValue c1 c2 (normT r g b) := le_trans (Int.natCast_nonneg _) l
  have hu : duotoneValue c1 c2 (normT r g b) ≤ 255 := by
    have : max c1 c2 ≤ 255 := max_le h1 h2
    have : ((max c1 c2 : ℕ) : ℤ) ≤ 255 := by exact_mod_cast this
    omega
  obtain ⟨n, hn⟩ := Int.eq_ofNat_of_zero_le hl
  rw [hn]
  have hn255 : n ≤ 255 := by omega
  rw [show (((n : ℤ)) : ℚ) = (n : ℚ) by push_cast; rfl, toUint8Clamp_nat n hn255]

/-- Inverting a stored byte: `255 - data[i]` is exact and is stored as is. -/
theorem stored_invert (d : ℕ) (hd : d ≤ 255) :
    fl (255 - (d : ℚ)) = ((255 - d : ℕ) : ℚ) ∧ toUint8Clamp (fl (255 - (d : ℚ))) = 255 - d := by
  have e : (255 : ℚ) - (d : ℚ) = ((255 - d : ℕ) : ℚ) := by
    rw [Nat.cast_sub hd]
    norm_num
  have hf : fl (255 - (d : ℚ)) = ((255 - d : ℕ) : ℚ) := by
    rw [e]
    exact fl_byte _ (by omega)
  exact ⟨hf, by rw [hf]; exact toUint8Clamp_nat _ (by omega)⟩

theorem duotoneChannel_plain (c1 c2 : ℕ) (t : ℚ) :
    duotoneChannel c1 c2 false t = toUint8Clamp (duotoneValue c1 c2 t) := by
  simp [duotoneChannel]

theorem duotoneChannel_inverted (c1 c2 : ℕ) (t : ℚ) :
    duotoneChannel c1 c2 true t = 255 - duotoneChannel c1 c2 false t := by
  have h := stored_invert (toUint8Clamp (duotoneValue c1 c2 t)) (toUint8Clamp_le _)
  simp only [duotoneChannel, if_true, Bool.false_eq_true, if_false]
  exact h.2

/-- Exact luma in hundredths is a natural number. -/
theorem exactLuma_nat (r g b : ℕ) :
    exactLuma r g b = ((30 * r + 59 * g + 11 * b : ℕ) : ℚ) / 100 := by
  unfold exactLuma
  push_cast
  ring

/-- Strictly ordered lumas differ by at least one hundredth. -/
theorem exactLuma_gap (r g b r2 g2 b2 : ℕ) (h : exactLuma r g b < exactLuma r2 g2 b2) :
    exactLuma r g b + 1 / 100 ≤ exactLuma r2 g2 b2 := by
  rw [exactLuma_nat, exactLuma_nat] at h ⊢
  rw [div_lt_div_iff_of_pos_right (by norm_num)] at h
  have h' : 30 * r + 59 * g + 11 * b < 30 * r2 + 59 * g2 + 11 * b2 := by exact_mod_cast h
  have h'' : 30 * r + 59 * g + 11 * b + 1 ≤ 30 * r2 + 59 * g2 + 11 * b2 := h'
  have h3 : ((30 * r + 59 * g + 11 * b : ℕ) : ℚ) + 1 ≤ ((30 * r2 + 59 * g2 + 11 * b2 : ℕ) : ℚ) := by
    exact_mod_cast h''
  rw [← add_div, div_le_div_iff_of_pos_right (by norm_num)]
  exact h3

/-- For strictly increasing luma and `c1 ≤ c2` the rounded value does not
decrease; for `c2 ≤ c1` it does not increase. -/
theorem duotoneValue_strict_mono (c1 c2 r g b r2 g2 b2 : ℕ) (h1 : c1 ≤ 255) (h2 : c2 ≤ 255)
    (hr : r ≤ 255) (hg : g ≤ 255) (hb : b ≤ 255)
    (hr2 : r2 ≤ 255) (hg2 : g2 ≤ 255) (hb2 : b2 ≤ 255)
    (h : exactLuma r g b < exactLuma r2 g2 b2) :
    (c1 ≤ c2 → duotoneValue c1 c2 (normT r g b) ≤ duotoneValue c1 c2 (normT r2 g2 b2)) ∧
    (c2 ≤ c1 → duotoneValue c1 c2 (normT r2 g2 b2) ≤ duotoneValue c1 c2 (normT r g b)) := by
  have hp := mix_close c1 c2 r g b h1 h2 hr hg hb
  have hq := mix_close c1 c2 r2 g2 b2 h1 h2 hr2 hg2 hb2
  have rp := duotoneValue_range c1 c2 r g b h1 h2 hr hg hb
  have rq := duotoneValue_range c1 c2 r2 g2 b2 h1 h2 hr2 hg2 hb2
  obtain ⟨-, hu⟩ := ulp_small
  have gap := exactLuma_gap r g b r2 g2 b2 h
  rw [abs_le] at hp hq
  rw [exactMix_eq] at hp hq
  constructor
  · intro hle
    rcases Nat.eq_or_lt_of_le hle with heq | hlt
    · subst heq
      rw [min_self, max_self] at rp rq
      omega
    · have hd : (c1 : ℚ) + 1 ≤ c2 := by exact_mod_cast hlt
      unfold duotoneValue
      apply mathRound_mono
      have : ((c2 : ℚ) - c1) * (exactLuma r g b / 255) + 1 / 25500
          ≤ ((c2 : ℚ) - c1) * (exactLuma r2 g2 b2 / 255) := by
        have h0 : (1 : ℚ) ≤ (c2 : ℚ) - c1 := by linarith
        have : exactLuma r g b / 255 + 1 / 25500 ≤ exactLuma r2 g2 b2 / 255 := by
          rw [div_add_div _ _ (by norm_num) (by norm_num), div_le_div_iff₀ (by norm_num)
            (by norm_num)]
          linarith
        nlinarith
      linarith [hp.2, hq.1]
  · intro hle
    rcases Nat.eq_or_lt_of_le hle with heq | hlt
    · subst heq
      rw [min_self, max_self] at rp rq
      omega
    · have hd : (c2 : ℚ) + 1 ≤ c1 := by exact_mod_cast hlt
      unfold duotoneValue
      apply mathRound_mono
      have : ((c1 : ℚ) - c2) * (exactLuma r g b / 255) + 1 / 25500
          ≤ ((c1 : ℚ) - c2) * (exactLuma r2 g2 b2 / 255) := by
        have h0 : (1 : ℚ) ≤ (c1 : ℚ) - c2 := by linarith
        have : exactLuma r g b / 255 + 1 / 25500 ≤ exactLuma r2 g2 b2 / 255 := by
          rw [div_add_div _ _ (by norm_num) (by norm_num), div_le_div_iff₀ (by norm_num)
            (by norm_num)]
          linarith
        nlinarith
      linarith [hp.1, hq.2]

/-! ## One channel of the grain pass -/

theorem mul_close {a A b B ca cb MA Mb : ℚ} (ha : |a - A| ≤ ca) (hb : |b - B| ≤ cb)
    (hA : |A| ≤ MA) (hbM : |b| ≤ Mb) : |a * b - A * B| ≤ ca * Mb + MA * cb := by
  have e : a * b - A * B = (a - A) * b + A * (b - B) := by ring
  have hca : 0 ≤ ca := le_trans (abs_nonneg _) ha
  have hMA : 0 ≤ MA := le_trans (abs_nonneg _) hA
  rw [e]
  calc |(a - A) * b + A * (b - B)|
      ≤ |(a - A) * b| + |A * (b - B)| := abs_add _ _
    _ = |a - A| * |b| + |A| * |b - B| := by rw [abs_mul, abs_mul]
    _ ≤ ca * Mb + MA * cb :=
        add_le_add (mul_le_mul ha hbM (abs_nonneg _) hca) (mul_le_mul hA hb (abs_nonneg _) hMA)

/-- The double `intensity` is within 51 half-ulps of `amount / 2`. -/
theorem grainIntensity_close (amount : ℤ) (h0 : 0 < amount) (h1 : amount ≤ 100) :
    |grainIntensity amount - (amount : ℚ) / 100 * 50| ≤ 51 * ulp ∧
    0 ≤ (amount : ℚ) / 100 * 50 ∧ (amount : ℚ) / 100 * 50 ≤ 50 := by
  have a0 : (0 : ℚ) < amount := by exact_mod_cast h0
  have a1 : (amount : ℚ) ≤ 100 := by exact_mod_cast h1
  have hq : |fl ((amount : ℚ) / 100) - (amount : ℚ) / 100| ≤ 0 + ulp :=
    fl_close (M := 1) (by simp) (by linarith [div_nonneg (le_of_lt a0) (by norm_num : (0 : ℚ) ≤ 100)])
      (by rw [div_le_iff₀ (by norm_num)]; linarith) (by norm_num)
  rw [zero_add] at hq
  have hm : |fl ((amount : ℚ) / 100) * 50 - (amount : ℚ) / 100 * 50| ≤ 50 * ulp := by
    rw [← sub_mul, abs_mul, abs_of_pos (by norm_num : (0 : ℚ) < 50)]
    linarith
  have hI := fl_close (M := 50) hm (by linarith) (by linarith) (by unfold ulp; norm_num)
  unfold grainIntensity
  refine ⟨by linarith, by linarith, by linarith⟩

/-- The double `noise` is within 78 half-ulps of the exact
`(u - 0.5) * (amount / 100 * 50)`, which is at most 25 in absolute value. -/
theorem grainNoise_close (amount : ℤ) (h0 : 0 < amount) (h1 : amount ≤ 100) (u : ℚ)
    (u0 : 0 ≤ u) (u1 : u < 1) :
    |grainNoise u (grainIntensity amount) - (u - 1 / 2) * ((amount : ℚ) / 100 * 50)| ≤ 78 * ulp ∧
    |(u - 1 / 2) * ((amount : ℚ) / 100 * 50)| ≤ 25 := by
  obtain ⟨hI, i0, i1⟩ := grainIntensity_close amount h0 h1
  have hup : (0 : ℚ) < ulp := ulp_small.1
  have hus : ulp ≤ 1 / 1000000 := by unfold ulp; norm_num
  have hd : |fl (u - 1 / 2) - (u - 1 / 2)| ≤ 0 + ulp :=
    fl_close (M := 1) (by simp) (by linarith) (by linarith) (by norm_num)
  rw [zero_add] at hd
  have hD : |u - 1 / 2| ≤ 1 / 2 := by
    rw [abs_le]
    constructor <;> linarith
  have hIb : |grainIntensity amount| ≤ 51 := by
    rw [abs_le] at hI ⊢
    constructor <;> linarith [hI.1, hI.2]
  have hm := mul_close hd hI hD hIb
  have hX : |(u - 1 / 2) * ((amount : ℚ) / 100 * 50)| ≤ 25 := by
    rw [abs_mul, abs_of_nonneg i0]
    calc |u - 1 / 2| * ((amount : ℚ) / 100 * 50) ≤ 1 / 2 * 50 :=
          mul_le_mul hD i1 i0 (by norm_num)
      _ = 25 := by norm_num
  rw [abs_le] at hX
  have hn := fl_close (M := 25) hm hX.1 hX.2 (by linarith)
  unfold grainNoise
  refine ⟨by linarith, ?_⟩
  rw [abs_le]
  exact hX

/-- The byte stored by the grain loop is the nearest integer to the exact sum,
up to the rounding of the doubles, when that sum is in `[0, 255]`. -/
theorem grainChannel_close (x : ℕ) (noise n : ℚ)
    (hn : |noise - n| ≤ 78 * ulp) (h0 : 0 ≤ (x : ℚ) + n) (h1 : (x : ℚ) + n ≤ 255) :
    |((grainChannel x noise : ℕ) : ℚ) - ((x : ℚ) + n)| ≤ 1 / 2 + 79 * ulp := by
  have hup : (0 : ℚ) < ulp := ulp_small.1
  have hus : ulp ≤ 1 / 1000000 := by unfold ulp; norm_num
  have hs : |((x : ℚ) + noise) - ((x : ℚ) + n)| ≤ 78 * ulp := by
    rw [show ((x : ℚ) + noise) - ((x : ℚ) + n) = noise - n by ring]
    exact hn
  have hv := fl_close (M := 255) hs (by linarith) h1 (by linarith)
  rw [abs_le] at hv
  set v := fl ((x : ℚ) + noise) with hvdef
  have hc0 : 0 ≤ clamp v 0 255 := by
    unfold clamp
    exact le_min (le_max_right _ _) (by norm_num)
  have hc1 : clamp v 0 255 ≤ 255 := min_le_right _ _
  have hcl : (x : ℚ) + n - 79 * ulp ≤ clamp v 0 255 := by
    unfold clamp
    exact le_min (le_trans (by linarith [hv.1]) (le_max_left _ _)) (by linarith)
  have hcu : clamp v 0 255 ≤ (x : ℚ) + n + 79 * ulp := by
    unfold clamp
    exact le_trans (min_le_left _ _) (max_le (by linarith [hv.2]) (by linarith))
  have hid : min (max (clamp v 0 255) 0) 255 = clamp v 0 255 := by
    rw [max_eq_left hc0, min_eq_left hc1]
  have he := roundHalfEven_err (clamp v 0 255)
  rw [abs_le] at he
  have hpos : 0 ≤ roundHalfEven (clamp v 0 255) := by
    have : (-1 : ℚ) < ((roundHalfEven (clamp v 0 255) : ℤ) : ℚ) := by linarith [he.1]
    have : (-1 : ℤ) < roundHalfEven (clamp v 0 255) := by exact_mod_cast this
    omega
  have hcast : ((grainChannel x noise : ℕ) : ℚ) = ((roundHalfEven (clamp v 0 255) : ℤ) : ℚ) := by
    unfold grainChannel toUint8Clamp
    rw [← hvdef, hid]
    have : ((roundHalfEven (clamp v 0 255)).toNat : ℤ) = roundHalfEven (clamp v 0 255) :=
      Int.toNat_of_nonneg hpos
    exact_mod_cast congrArg (fun z : ℤ => (z : ℚ)) this
  rw [hcast, abs_le]
  constructor <;> linarith [he.1, he.2]

/-- Two integer changes that are each within a half, and a hair, of the same
amount differ by at most one. -/
theorem changes_close (p x q y : ℕ) (n ε : ℚ) (hε : ε < 1 / 4)
    (hp : |((p : ℕ) : ℚ) - ((x : ℚ) + n)| ≤ 1 / 2 + ε)
    (hq : |((q : ℕ) : ℚ) - ((y : ℚ) + n)| ≤ 1 / 2 + ε) :
    |((p : ℤ) - (x : ℤ)) - ((q : ℤ) - (y : ℤ))| ≤ 1 := by
  rw [abs_le] at hp hq
  have h1 : ((((p : ℤ) - (x : ℤ)) - ((q : ℤ) - (y : ℤ)) : ℤ) : ℚ) < 2 := by
    push_cast
    linarith [hp.1, hp.2, hq.1, hq.2]
  have h2 : (-2 : ℚ) < ((((p : ℤ) - (x : ℤ)) - ((q : ℤ) - (y : ℤ)) : ℤ) : ℚ) := by
    push_cast
    linarith [hp.1, hp.2, hq.1, hq.2]
  have h1' : ((p : ℤ) - (x : ℤ)) - ((q : ℤ) - (y : ℤ)) < 2 := by exact_mod_cast h1
  have h2' : (-2 : ℤ) < ((p : ℤ) - (x : ℤ)) - ((q : ℤ) - (y : ℤ)) := by exact_mod_cast h2
  rw [abs_le]
  constructor <;> omega

/-! ## The pipeline on a loaded session -/

theorem checkImageData_ok (w h : ℕ) (hpos : 0 < w * h) :
    checkImageData (4 * (w * h)) w h = none := by
  have hw : 0 < w := Nat.pos_of_mul_pos_right hpos
  have e1 : 4 * (w * h) / 4 = w * h := Nat.mul_div_cancel_left _ (by norm_num)
  have c1 : ¬ (4 * (w * h) = 0 ∨ 4 * (w * h) % 4 ≠ 0) := by
    rintro (h0 | h0)
    · omega
    · exact h0 (Nat.mul_mod_right 4 _)
  have c2 : ¬ (w = 0 ∨ 4 * (w * h) / 4 % w ≠ 0) := by
    rw [e1]
    rintro (h0 | h0)
    · omega
    · exact h0 (Nat.mul_mod_right w h)
  have c3 : ¬ (h ≠ 4 * (w * h) / 4 / w) := by
    rw [e1, Nat.mul_div_cancel_left h hw]
    exact fun hne => hne rfl
  unfold checkImageData
  rw [if_neg c1, if_neg c2, if_neg c3]

theorem applyGrainEffect_canvas (env : Env) (amount : ℤ) (st : State) :
    (applyGrainEffect env amount st).canvas
      = grainLoop (grainIntensity amount) env.random 0 st.canvas := by
  unfold applyGrainEffect
  simp only [heap_alloc_get, heap_alloc_fresh]

/-- On a loaded session `applyDuotoneEffect` does not throw; the canvas receives
the output of the duotone loop on a copy of the source, followed by the grain
loop exactly when `grainAmount > 0`. -/
theorem applyDuotoneEffect_loaded (env : Env) (st : State) (src : ImageData) (data : List ℕ)
    (hl : Loaded st src data) :
    (applyDuotoneEffect env st).2 = none ∧
    (st.grainAmount ≤ 0 →
      (applyDuotoneEffect env st).1.canvas
        = duotoneLoop (hexToRgb env.color1) (hexToRgb env.color2) st.isInverted data ∧
      (applyDuotoneEffect env st).1.heap
        = (st.heap ++ [data]).set st.heap.length
            (duotoneLoop (hexToRgb env.color1) (hexToRgb env.color2) st.isInverted data)) ∧
    (0 < st.grainAmount →
      (applyDuotoneEffect env st).1.canvas
        = grainLoop (grainIntensity st.grainAmount) env.random 0
            (duotoneLoop (hexToRgb env.color1) (hexToRgb env.color2) st.isInverted data)) := by
  have hget : st.heap.getD src.data [] = data := by
    simp [List.getD_eq_getElem?_getD, hl.stored]
  have hc : checkImageData data.length src.width src.height = none := by
    rw [hl.size]
    exact checkImageData_ok _ _ hl.nonempty
  unfold applyDuotoneEffect
  simp only [hl.source, hget, heap_alloc_fresh, hc, heap_alloc_get]
  by_cases hg : st.grainAmount > 0
  · rw [if_pos hg]
    refine ⟨rfl, fun h => absurd hg (not_lt.mpr h), fun _ => ?_⟩
    rw [applyGrainEffect_canvas]
  · rw [if_neg hg]
    exact ⟨rfl, fun _ => ⟨rfl, rfl⟩, fun h => absurd h hg⟩

/-- C6: `hexToRgb` is total.  On six base-16 digits, in either case and with an
optional leading `#`, it returns the three pairs read in base 16 (the value of
a digit being its position in `0123456789abcdef`), each at most 255, and the
upper-case and lower-case spellings of the string give the same colour; on any
other string it returns `(0, 0, 0)`. -/
theorem hexToRgb_spec (s : String) :
    (∀ a b c d e f : Char,
      isHexDigit a = true → isHexDigit b = true → isHexDigit c = true →
      isHexDigit d = true → isHexDigit e = true → isHexDigit f = true →
      (s.data = [a, b, c, d, e, f] ∨ s.data = '#' :: [a, b, c, d, e, f]) →
        hexToRgb s = { r := 16 * hexDigitValue a + hexDigitValue b,
                       g := 16 * hexDigitValue c + hexDigitValue d,
                       b := 16 * hexDigitValue e + hexDigitValue f } ∧
        (∀ x ∈ [a, b, c, d, e, f],
          "0123456789abcdef".data[hexDigitValue x]? = some x.toLower) ∧
        (hexToRgb s).r ≤ 255 ∧ (hexToRgb s).g ≤ 255 ∧ (hexToRgb s).b ≤ 255 ∧
        hexToRgb (String.mk (s.data.map Char.toUpper)) = hexToRgb s ∧
        hexToRgb (String.mk (s.data.map Char.toLower)) = hexToRgb s) ∧
    ((¬ ∃ a b c d e f : Char,
        isHexDigit a = true ∧ isHexDigit b = true ∧ isHexDigit c = true ∧
        isHexDigit d = true ∧ isHexDigit e = true ∧ isHexDigit f = true ∧
        (s.data = [a, b, c, d, e, f] ∨ s.data = '#' :: [a, b, c, d, e, f])) →
      hexToRgb s = { r := 0, g := 0, b := 0 }) := by
  constructor
  · intro a b c d e f ha hb hc hd he hf hs
    have hval := hexToRgb_match s a b c d e f ha hb hc hd he hf hs
    obtain ⟨l1, l2, l3⟩ := hexToRgb_le s
    have hh : '#'.toUpper = '#' ∧ '#'.toLower = '#' := by decide
    refine ⟨hval, ?_, l1, l2, l3, ?_, ?_⟩
    · intro x hx
      simp only [List.mem_cons, List.mem_singleton, List.not_mem_nil, or_false] at hx
      rcases hx with rfl | rfl | rfl | rfl | rfl | rfl <;> exact hexDigit_table _ ‹_›
    · rw [hval]
      rw [hexToRgb_match (String.mk (s.data.map Char.toUpper)) a.toUpper b.toUpper c.toUpper
        d.toUpper e.toUpper f.toUpper (hexDigit_upper a ha).1 (hexDigit_upper b hb).1
        (hexDigit_upper c hc).1 (hexDigit_upper d hd).1 (hexDigit_upper e he).1
        (hexDigit_upper f hf).1 (by rcases hs with hs | hs <;> simp [hs, hh.1])]
      rw [(hexDigit_upper a ha).2, (hexDigit_upper b hb).2, (hexDigit_upper c hc).2,
        (hexDigit_upper d hd).2, (hexDigit_upper e he).2, (hexDigit_upper f hf).2]
    · rw [hval]
      rw [hexToRgb_match (String.mk (s.data.map Char.toLower)) a.toLower b.toLower c.toLower
        d.toLower e.toLower f.toLower (hexDigit_lower a ha).1 (hexDigit_lower b hb).1
        (hexDigit_lower c hc).1 (hexDigit_lower d hd).1 (hexDigit_lower e he).1
        (hexDigit_lower f hf).1 (by rcases hs with hs | hs <;> simp [hs, hh.2])]
      rw [(hexDigit_lower a ha).2, (hexDigit_lower b hb).2, (hexDigit_lower c hc).2,
        (hexDigit_lower d hd).2, (hexDigit_lower e he).2, (hexDigit_lower f hf).2]
  · intro hno
    cases hx : execHex s.data with
    | none =>
      unfold hexToRgb
      rw [hx]
    | some m =>
      exact absurd (execHex_some _ m hx) hno

/-! ## Claims on the session state -/

/-- C7: for a state in which an image is loaded, any sequence of
`applyDuotoneEffect`, `toggleInvert` and `updateGrainValue` calls, whatever the
colours, random samples and slider values they read, leaves `originalImageData`
referring to the same array, and that array holds the same bytes as before. -/
theorem runCalls_source_unchanged (calls : List Call) (st : State) (src : ImageData)
    (data : List ℕ) (hsrc : st.originalImageData = some src)
    (hdata : st.heap[src.data]? = some data) :
    (runCalls st calls).originalImageData = some src ∧
    (runCalls st calls).heap[src.data]? = some data := by
  induction calls generalizing st with
  | nil => exact ⟨hsrc, hdata⟩
  | cons c cs ih =>
    have hf := Call.run_frame st c
    have := ih (c.run st) (by rw [hf.1]; exact hsrc) (hf.2 _ _ hdata)
    simpa [runCalls] using this

/-- C5: when the array of the source image is empty or its length is not a
multiple of four, `applyDuotoneEffect` throws (the `ImageData` constructor
rejects the copy with an `InvalidStateError`) and produces no output: the state,
canvas included, is as before the call. -/
theorem applyDuotoneEffect_invalid_buffer (env : Env) (st : State) (src : ImageData)
    (data : List ℕ) (hsrc : st.originalImageData = some src)
    (hdata : st.heap[src.data]? = some data)
    (hbad : data.length = 0 ∨ data.length % 4 ≠ 0) :
    applyDuotoneEffect env st = (st, some DOMException.invalidStateError) := by
  have hget : st.heap.getD src.data [] = data := by
    simp [List.getD_eq_getElem?_getD, hdata]
  unfold applyDuotoneEffect
  simp only [hsrc, hget, heap_alloc_fresh]
  have hc : checkImageData data.length src.width src.height
      = some DOMException.invalidStateError := by
    unfold checkImageData
    rw [if_pos hbad]
  rw [hc]

/-- A file whose type does not contain `image` is rejected: an alert is shown,
no read is started and the globals are untouched. -/
theorem processImage_rejects (file : File) (st : State)
    (h : matchImage file.type.data = false) :
    processImage file st = { st with alerts := st.alerts ++ ["Please upload an image file"] } := by
  simp [processImage, h]

/-- C9 (failing input): a file of type `application/x-apple-diskimage`, which
does not begin with `image/`, is not rejected by `processImage`: no alert is
shown and a read of the file is started. -/
theorem processImage_diskimage_starts_read (st : State) :
    startsWith "image/".data "application/x-apple-diskimage".data = false ∧
    (processImage { type := "application/x-apple-diskimage" } st).alerts = st.alerts ∧
    (processImage { type := "application/x-apple-diskimage" } st).reads
      = st.reads ++ [{ type := "application/x-apple-diskimage" }] := by
  have h : matchImage "application/x-apple-diskimage".data = true := by decide
  refine ⟨by decide, ?_, ?_⟩ <;> simp [processImage, h]

/-! ## Claims on the duotone pass -/

theorem duotoneChannel_value (c1 c2 r g b : ℕ) (h1 : c1 ≤ 255) (h2 : c2 ≤ 255)
    (hr : r ≤ 255) (hg : g ≤ 255) (hb : b ≤ 255) :
    ((duotoneChannel c1 c2 false (normT r g b) : ℕ) : ℤ) = duotoneValue c1 c2 (normT r g b) := by
  rw [duotoneChannel_plain]
  exact stored_duotoneValue c1 c2 r g b h1 h2 hr hg hb

theorem duotoneChannel_between (c1 c2 r g b : ℕ) (h1 : c1 ≤ 255) (h2 : c2 ≤ 255)
    (hr : r ≤ 255) (hg : g ≤ 255) (hb : b ≤ 255) :
    ChannelBetween c1 c2 (duotoneChannel c1 c2 false (normT r g b)) := by
  have hv := duotoneChannel_value c1 c2 r g b h1 h2 hr hg hb
  obtain ⟨l, u⟩ := duotoneValue_range c1 c2 r g b h1 h2 hr hg hb
  rw [← hv] at l u
  exact ⟨by exact_mod_cast l, by exact_mod_cast u⟩

theorem duotoneChannel_ordered (c1 c2 r g b r2 g2 b2 : ℕ) (h1 : c1 ≤ 255) (h2 : c2 ≤ 255)
    (hr : r ≤ 255) (hg : g ≤ 255) (hb : b ≤ 255)
    (hr2 : r2 ≤ 255) (hg2 : g2 ≤ 255) (hb2 : b2 ≤ 255)
    (h : exactLuma r g b < exactLuma r2 g2 b2) :
    ChannelOrdered c1 c2 (duotoneChannel c1 c2 false (normT r g b))
      (duotoneChannel c1 c2 false (normT r2 g2 b2)) := by
  have hp := duotoneChannel_value c1 c2 r g b h1 h2 hr hg hb
  have hq := duotoneChannel_value c1 c2 r2 g2 b2 h1 h2 hr2 hg2 hb2
  obtain ⟨m1, m2⟩ := duotoneValue_strict_mono c1 c2 r g b r2 g2 b2 h1 h2 hr hg hb hr2 hg2 hb2 h
  rw [← hp, ← hq] at m1 m2
  exact ⟨fun hle => by exact_mod_cast m1 hle, fun hle => by exact_mod_cast m2 hle⟩

theorem duotoneChannel_black (c1 c2 : ℕ) (h1 : c1 ≤ 255) (h2 : c2 ≤ 255) :
    duotoneChannel c1 c2 false (normT 0 0 0) = c1 := by
  have hv := duotoneChannel_value c1 c2 0 0 0 h1 h2 (by norm_num) (by norm_num) (by norm_num)
  have he : duotoneValue c1 c2 (normT 0 0 0) = (c1 : ℤ) := by
    apply duotoneValue_eq_of_exact c1 c2 0 0 0 h1 h2 (by norm_num) (by norm_num) (by norm_num)
    have : exactMix c1 c2 0 0 0 - ((c1 : ℤ) : ℚ) = 0 := by
      unfold exactMix exactLuma
      push_cast
      ring
    rw [this, abs_zero]
    norm_num
  rw [he] at hv
  exact_mod_cast hv

theorem duotoneChannel_white (c1 c2 : ℕ) (h1 : c1 ≤ 255) (h2 : c2 ≤ 255) :
    duotoneChannel c1 c2 false (normT 255 255 255) = c2 := by
  have hv := duotoneChannel_value c1 c2 255 255 255 h1 h2 (by norm_num) (by norm_num)
    (by norm_num)
  have he : duotoneValue c1 c2 (normT 255 255 255) = (c2 : ℤ) := by
    apply duotoneValue_eq_of_exact c1 c2 255 255 255 h1 h2 (by norm_num) (by norm_num)
      (by norm_num)
    have : exactMix c1 c2 255 255 255 - ((c2 : ℤ) : ℚ) = 0 := by
      unfold exactMix exactLuma
      push_cast
      ring
    rw [this, abs_zero]
    norm_num
  rw [he] at hv
  exact_mod_cast hv

/-- C1 (amended): on a loaded session with `grainAmount = 0` and
`isInverted = false`, `applyDuotoneEffect` does not throw and puts on the canvas
a buffer of the length of the source; it allocates the copy only and returns
the same result whatever `Math.random` would give (the grain pass is not run).
For each source pixel `(R, G, B, A)` the output pixel is `(x, y, z, A)` where
each of `x`, `y`, `z` is, unchanged by the store, the value of
`Math.round(c1 * (1 - t) + c2 * t)` computed in double arithmetic with
`t = (0.3 * R + 0.59 * G + 0.11 * B) / 255` also in double arithmetic; this
value is at most one away from the rounding of the exact interpolation. -/
theorem applyDuotoneEffect_plain (env : Env) (st : State) (src : ImageData) (data : List ℕ)
    (hl : Loaded st src data) (hg : st.grainAmount = 0) (hinv : st.isInverted = false) :
    (applyDuotoneEffect env st).2 = none ∧
    (applyDuotoneEffect env st).1.canvas.length = data.length ∧
    (applyDuotoneEffect env st).1.heap.length = st.heap.length + 1 ∧
    (∀ random : ℕ → ℚ,
      applyDuotoneEffect { env with random := random } st = applyDuotoneEffect env st) ∧
    ∀ k R G B A : ℕ, pixelAt data k = some (R, G, B, A) →
      ∃ x y z : ℕ,
        pixelAt (applyDuotoneEffect env st).1.canvas k = some (x, y, z, A) ∧
        (x : ℤ) = duotoneValue (hexToRgb env.color1).r (hexToRgb env.color2).r (normT R G B) ∧
        (y : ℤ) = duotoneValue (hexToRgb env.color1).g (hexToRgb env.color2).g (normT R G B) ∧
        (z : ℤ) = duotoneValue (hexToRgb env.color1).b (hexToRgb env.color2).b (normT R G B) ∧
        |(x : ℤ) - mathRound (exactMix (hexToRgb env.color1).r (hexToRgb env.color2).r R G B)|
          ≤ 1 ∧
        |(y : ℤ) - mathRound (exactMix (hexToRgb env.color1).g (hexToRgb env.color2).g R G B)|
          ≤ 1 ∧
        |(z : ℤ) - mathRound (exactMix (hexToRgb env.color1).b (hexToRgb env.color2).b R G B)|
          ≤ 1 := by
  obtain ⟨hnone, hplain, -⟩ := applyDuotoneEffect_loaded env st src data hl
  obtain ⟨hcv, hheap⟩ := hplain (le_of_eq hg)
  obtain ⟨a1, a2, a3⟩ := hexToRgb_le env.color1
  obtain ⟨b1, b2, b3⟩ := hexToRgb_le env.color2
  refine ⟨hnone, ?_, ?_, ?_, ?_⟩
  · rw [hcv]
    exact duotoneLoop_length _ _ _ _ _ le_rfl
  · rw [hheap]
    simp
  · intro random
    have hg0 : ¬ st.grainAmount > 0 := by omega
    unfold applyDuotoneEffect
    cases st.originalImageData with
    | none => rfl
    | some s0 =>
      dsimp only
      cases checkImageData ((st.heap ++ [st.heap.getD s0.data []]).getD st.heap.length []).length
          s0.width s0.height with
      | some e => rfl
      | none =>
        dsimp only
        rw [if_neg hg0, if_neg hg0]
  · intro k R G B A hp
    obtain ⟨mR, mG, mB, -⟩ := pixelAt_mem data k R G B A hp
    have hR := hl.bytes R mR
    have hG := hl.bytes G mG
    have hB := hl.bytes B mB
    have hpix := duotoneLoop_pixel (hexToRgb env.color1) (hexToRgb env.color2) false k data
      R G B A hp
    rw [hinv] at hcv
    rw [← hcv] at hpix
    refine ⟨_, _, _, hpix, ?_, ?_, ?_, ?_, ?_, ?_⟩
    · exact duotoneChannel_value _ _ R G B a1 b1 hR hG hB
    · exact duotoneChannel_value _ _ R G B a2 b2 hR hG hB
    · exact duotoneChannel_value _ _ R G B a3 b3 hR hG hB
    · show |((duotoneChannel _ _ false (normT R G B) : ℕ) : ℤ) - _| ≤ 1
      rw [duotoneChannel_value _ _ R G B a1 b1 hR hG hB]
      exact duotoneValue_near_exact _ _ R G B a1 b1 hR hG hB
    · show |((duotoneChannel _ _ false (normT R G B) : ℕ) : ℤ) - _| ≤ 1
      rw [duotoneChannel_value _ _ R G B a2 b2 hR hG hB]
      exact duotoneValue_near_exact _ _ R G B a2 b2 hR hG hB
    · show |((duotoneChannel _ _ false (normT R G B) : ℕ) : ℤ) - _| ≤ 1
      rw [duotoneChannel_value _ _ R G B a3 b3 hR hG hB]
      exact duotoneValue_near_exact _ _ R G B a3 b3 hR hG hB

/-- C1 (counterexample): for the source pixel `(0, 201, 81, 255)` and the
colours `#000000`, `#010101` the exact interpolation is `1/2`, which rounds to
`1`, while `applyDuotoneEffect` stores `0`: in double arithmetic `gray` falls
just below `127.5`. -/
theorem applyDuotoneEffect_not_exact :
    (applyDuotoneEffect { color1 := "#000000", color2 := "#010101", random := fun _ => 0 }
      { heap := [[0, 201, 81, 255]], originalImageData := some { data := 0, width := 1, height := 1 },
        isInverted := false, grainAmount := 0, canvas := [], alerts := [], reads := [] }).1.canvas
      = [0, 0, 0, 255] ∧
    mathRound ((0 : ℚ) * (1 - (3 / 10 * 0 + 59 / 100 * 201 + 11 / 100 * 81) / 255)
      + 1 * ((3 / 10 * 0 + 59 / 100 * 201 + 11 / 100 * 81) / 255)) = 1 := by
  constructor
  · decide!
  · decide!

/-- C2: on a loaded session with `grainAmount = 0`, the canvas produced with
`isInverted = true` has the length of the one produced with `isInverted = false`
and, pixel by pixel, its R, G and B are 255 minus those of the latter and its
alpha is the same; `toggleInvert` from the non-inverted state produces the
inverted canvas. -/
theorem applyDuotoneEffect_inverted (env : Env) (st : State) (src : ImageData)
    (data : List ℕ) (hl : Loaded st src data) (hg : st.grainAmount = 0) :
    (applyDuotoneEffect env { st with isInverted := true }).1.canvas.length
      = (applyDuotoneEffect env { st with isInverted := false }).1.canvas.length ∧
    toggleInvert env { st with isInverted := false }
      = applyDuotoneEffect env { st with isInverted := true } ∧
    ∀ k r g b a : ℕ,
      pixelAt (applyDuotoneEffect env { st with isInverted := false }).1.canvas k
        = some (r, g, b, a) →
      r ≤ 255 ∧ g ≤ 255 ∧ b ≤ 255 ∧
      pixelAt (applyDuotoneEffect env { st with isInverted := true }).1.canvas k
        = some (255 - r, 255 - g, 255 - b, a) := by
  have hl0 : Loaded { st with isInverted := false } src data :=
    ⟨hl.source, hl.stored, hl.size, hl.nonempty, hl.bytes⟩
  have hl1 : Loaded { st with isInverted := true } src data :=
    ⟨hl.source, hl.stored, hl.size, hl.nonempty, hl.bytes⟩
  obtain ⟨-, h0, -⟩ := applyDuotoneEffect_loaded env _ src data hl0
  obtain ⟨-, h1, -⟩ := applyDuotoneEffect_loaded env _ src data hl1
  obtain ⟨c0, -⟩ := h0 (le_of_eq hg)
  obtain ⟨c1, -⟩ := h1 (le_of_eq hg)
  rw [c0, c1]
  refine ⟨?_, rfl, ?_⟩
  · rw [duotoneLoop_length _ _ _ _ _ le_rfl, duotoneLoop_length _ _ _ _ _ le_rfl]
  · intro k r g b a hp
    have hex : ∃ p, pixelAt data k = some p := by
      rw [pixelAt_some_iff]
      have := (pixelAt_some_iff _ k).mp ⟨_, hp⟩
      rwa [duotoneLoop_length _ _ _ _ _ le_rfl] at this
    obtain ⟨⟨R, G, B, A⟩, hd⟩ := hex
    have p0 := duotoneLoop_pixel (hexToRgb env.color1) (hexToRgb env.color2) false k data
      R G B A hd
    have p1 := duotoneLoop_pixel (hexToRgb env.color1) (hexToRgb env.color2) true k data
      R G B A hd
    dsimp only at hp
    rw [p0] at hp
    simp only [Option.some.injEq, Prod.mk.injEq] at hp
    obtain ⟨rfl, rfl, rfl, rfl⟩ := hp
    have hle : ∀ (u v : ℕ) (t : ℚ), duotoneChannel u v false t ≤ 255 := by
      intro u v t
      rw [duotoneChannel_plain]
      exact toUint8Clamp_le _
    refine ⟨hle _ _ _, hle _ _ _, hle _ _ _, ?_⟩
    dsimp only
    rw [p1]
    simp only [duotoneStep, duotoneChannel_inverted]

/-- C3: on a loaded session with `isInverted = false` and `grainAmount = 0`, a
black source pixel `(0, 0, 0, A)` comes out as the first colour with alpha `A`,
and a white source pixel `(255, 255, 255, A)` as the second colour with alpha
`A`. -/
theorem applyDuotoneEffect_black_white (env : Env) (st : State) (src : ImageData)
    (data : List ℕ) (hl : Loaded st src data) (hg : st.grainAmount = 0)
    (hinv : st.isInverted = false) (k A : ℕ) :
    (pixelAt data k = some (0, 0, 0, A) →
      pixelAt (applyDuotoneEffect env st).1.canvas k
        = some ((hexToRgb env.color1).r, (hexToRgb env.color1).g, (hexToRgb env.color1).b, A)) ∧
    (pixelAt data k = some (255, 255, 255, A) →
      pixelAt (applyDuotoneEffect env st).1.canvas k
        = some ((hexToRgb env.color2).r, (hexToRgb env.color2).g, (hexToRgb env.color2).b, A)) := by
  obtain ⟨-, hplain, -⟩ := applyDuotoneEffect_loaded env st src data hl
  obtain ⟨hcv, -⟩ := hplain (le_of_eq hg)
  obtain ⟨a1, a2, a3⟩ := hexToRgb_le env.color1
  obtain ⟨b1, b2, b3⟩ := hexToRgb_le env.color2
  rw [hcv, hinv]
  constructor
  · intro hp
    rw [duotoneLoop_pixel _ _ false k data 0 0 0 A hp]
    simp only [duotoneStep]
    rw [duotoneChannel_black _ _ a1 b1, duotoneChannel_black _ _ a2 b2,
      duotoneChannel_black _ _ a3 b3]
  · intro hp
    rw [duotoneLoop_pixel _ _ false k data 255 255 255 A hp]
    simp only [duotoneStep]
    rw [duotoneChannel_white _ _ a1 b1, duotoneChannel_white _ _ a2 b2,
      duotoneChannel_white _ _ a3 b3]

/-- C10 (amended): with `isInverted = false`, for colours and source pixels with
components in `[0, 255]`, every output channel of either pixel lies between the
two colour components; and when the exact luma of `p` is strictly below that of
`q`, each output channel of `p` is at most that of `q` where `c1 ≤ c2`, and at
least that of `q` where `c2 ≤ c1`. -/
theorem duotoneStep_monotone (color1 color2 : Color) (r g b r2 g2 b2 : ℕ)
    (h1 : color1.r ≤ 255 ∧ color1.g ≤ 255 ∧ color1.b ≤ 255)
    (h2 : color2.r ≤ 255 ∧ color2.g ≤ 255 ∧ color2.b ≤ 255)
    (hp : r ≤ 255 ∧ g ≤ 255 ∧ b ≤ 255) (hq : r2 ≤ 255 ∧ g2 ≤ 255 ∧ b2 ≤ 255) :
    (ChannelBetween color1.r color2.r (duotoneStep color1 color2 false r g b).1 ∧
     ChannelBetween color1.g color2.g (duotoneStep color1 color2 false r g b).2.1 ∧
     ChannelBetween color1.b color2.b (duotoneStep color1 color2 false r g b).2.2 ∧
     ChannelBetween color1.r color2.r (duotoneStep color1 color2 false r2 g2 b2).1 ∧
     ChannelBetween color1.g color2.g (duotoneStep color1 color2 false r2 g2 b2).2.1 ∧
     ChannelBetween color1.b color2.b (duotoneStep color1 color2 false r2 g2 b2).2.2) ∧
    (exactLuma r g b < exactLuma r2 g2 b2 →
      ChannelOrdered color1.r color2.r (duotoneStep color1 color2 false r g b).1
        (duotoneStep color1 color2 false r2 g2 b2).1 ∧
      ChannelOrdered color1.g color2.g (duotoneStep color1 color2 false r g b).2.1
        (duotoneStep color1 color2 false r2 g2 b2).2.1 ∧
      ChannelOrdered color1.b color2.b (duotoneStep color1 color2 false r g b).2.2
        (duotoneStep color1 color2 false r2 g2 b2).2.2) := by
  obtain ⟨u1, u2, u3⟩ := h1
  obtain ⟨v1, v2, v3⟩ := h2
  obtain ⟨p1, p2, p3⟩ := hp
  obtain ⟨q1, q2, q3⟩ := hq
  simp only [duotoneStep]
  refine ⟨⟨?_, ?_, ?_, ?_, ?_, ?_⟩, fun h => ⟨?_, ?_, ?_⟩⟩
  · exact duotoneChannel_between _ _ r g b u1 v1 p1 p2 p3
  · exact duotoneChannel_between _ _ r g b u2 v2 p1 p2 p3
  · exact duotoneChannel_between _ _ r g b u3 v3 p1 p2 p3
  · exact duotoneChannel_between _ _ r2 g2 b2 u1 v1 q1 q2 q3
  · exact duotoneChannel_between _ _ r2 g2 b2 u2 v2 q1 q2 q3
  · exact duotoneChannel_between _ _ r2 g2 b2 u3 v3 q1 q2 q3
  · exact duotoneChannel_ordered _ _ r g b r2 g2 b2 u1 v1 p1 p2 p3 q1 q2 q3 h
  · exact duotoneChannel_ordered _ _ r g b r2 g2 b2 u2 v2 p1 p2 p3 q1 q2 q3 h
  · exact duotoneChannel_ordered _ _ r g b r2 g2 b2 u3 v3 p1 p2 p3 q1 q2 q3 h

/-- C10 (counterexample): the pixels `p = (130, 150, 0)` and `q = (0, 201, 81)`
have the same exact luma `127.5`, so the luma of `p` is at most that of `q`;
with the colours `(0, 0, 0)` and `(1, 1, 1)` the red output of `p` is `1` and
that of `q` is `0`. -/
theorem duotoneStep_not_monotone :
    (3 / 10 * 130 + 59 / 100 * 150 + 11 / 100 * 0 : ℚ)
      ≤ 3 / 10 * 0 + 59 / 100 * 201 + 11 / 100 * 81 ∧
    (duotoneStep { r := 0, g := 0, b := 0 } { r := 1, g := 1, b := 1 } false 130 150 0).1 = 1 ∧
    (duotoneStep { r := 0, g := 0, b := 0 } { r := 1, g := 1, b := 1 } false 0 201 81).1 = 0 ∧
    ¬ ((duotoneStep { r := 0, g := 0, b := 0 } { r := 1, g := 1, b := 1 } false 130 150 0).1
      ≤ (duotoneStep { r := 0, g := 0, b := 0 } { r := 1, g := 1, b := 1 } false 0 201 81).1) := by
  refine ⟨by norm_num, by decide!, by decide!, by decide!⟩

/-! ## Claims on the range of the output and on the grain pass -/

/-- C4: on a loaded session whose source bytes are in `[0, 255]`, for either
value of `isInverted`, every `grainAmount` (in `[0, 100]` or not) and every
sequence of samples (in `[0, 1)` or not), `applyDuotoneEffect` (with the grain
pass when `grainAmount > 0`) does not throw and every byte of the canvas is in
`[0, 255]`;
and for every source pixel and every channel, the value of `Math.round` in the
duotone loop is an integer `v` in `[0, 255]` before it is stored, and
`255 - v`, computed as a double, is an integer `m` in `[0, 255]`. -/
theorem applyDuotoneEffect_bytes (env : Env) (st : State) (src : ImageData) (data : List ℕ)
    (hl : Loaded st src data) :
    (applyDuotoneEffect env st).2 = none ∧
    (∀ x ∈ (applyDuotoneEffect env st).1.canvas, x ≤ 255) ∧
    ∀ k R G B A : ℕ, pixelAt data k = some (R, G, B, A) →
      ∀ c ∈ [((hexToRgb env.color1).r, (hexToRgb env.color2).r),
             ((hexToRgb env.color1).g, (hexToRgb env.color2).g),
             ((hexToRgb env.color1).b, (hexToRgb env.color2).b)],
        ∃ v m : ℕ, v ≤ 255 ∧ m ≤ 255 ∧
          duotoneValue c.1 c.2 (normT R G B) = (v : ℤ) ∧
          toUint8Clamp (duotoneValue c.1 c.2 (normT R G B)) = v ∧
          fl (255 - (v : ℚ)) = (m : ℚ) := by
  obtain ⟨hnone, hplain, hgrain⟩ := applyDuotoneEffect_loaded env st src data hl
  obtain ⟨a1, a2, a3⟩ := hexToRgb_le env.color1
  obtain ⟨b1, b2, b3⟩ := hexToRgb_le env.color2
  have hduo := duotoneLoop_bytes (hexToRgb env.color1) (hexToRgb env.color2) st.isInverted
    data.length data le_rfl hl.bytes
  refine ⟨hnone, ?_, ?_⟩
  · by_cases h0 : 0 < st.grainAmount
    · rw [hgrain h0]
      exact grainLoop_bytes _ _ _ 0 _ le_rfl hduo
    · rw [(hplain (not_lt.mp h0)).1]
      exact hduo
  · intro k R G B A hp c hc
    obtain ⟨mR, mG, mB, -⟩ := pixelAt_mem data k R G B A hp
    have hR := hl.bytes R mR
    have hG := hl.bytes G mG
    have hB := hl.bytes B mB
    have key : ∀ u w : ℕ, u ≤ 255 → w ≤ 255 →
        ∃ v m : ℕ, v ≤ 255 ∧ m ≤ 255 ∧ duotoneValue u w (normT R G B) = (v : ℤ) ∧
          toUint8Clamp (duotoneValue u w (normT R G B)) = v ∧ fl (255 - (v : ℚ)) = (m : ℚ) := by
      intro u w hu1 hw1
      have hs := stored_duotoneValue u w R G B hu1 hw1 hR hG hB
      have hle := toUint8Clamp_le ((duotoneValue u w (normT R G B) : ℤ) : ℚ)
      exact ⟨_, 255 - toUint8Clamp (duotoneValue u w (normT R G B)), hle, by omega, hs.symm,
        rfl, (stored_invert _ hle).1⟩
    simp only [List.mem_cons, List.mem_singleton, List.not_mem_nil, or_false] at hc
    rcases hc with rfl | rfl | rfl
    · exact key _ _ a1 b1
    · exact key _ _ a2 b2
    · exact key _ _ a3 b3

/-- C8 (amended): for a pixel `(r, g, b, a)` of the canvas read by
`applyGrainEffect`, an `amount` in `(0, 100]` and a sample in `[0, 1)` for that
pixel, the pixel written back is `(r2, g2, b2, a)` with the same alpha; and
with `n = (u - 0.5) * (amount / 100 * 50)` in exact arithmetic, when none of
`r + n`, `g + n`, `b + n` is outside `[0, 255]`, each stored channel is within
`1/2 + 10⁻⁹` of the channel plus `n`, so that the changes of any two channels
differ by at most one. -/
theorem applyGrainEffect_pixel (env : Env) (amount : ℤ) (st : State) (k r g b a : ℕ)
    (hp : pixelAt st.canvas k = some (r, g, b, a)) (ha : 0 < amount ∧ amount ≤ 100)
    (hu : 0 ≤ env.random k ∧ env.random k < 1) :
    ∃ r2 g2 b2 : ℕ,
      pixelAt (applyGrainEffect env amount st).canvas k = some (r2, g2, b2, a) ∧
      ∀ n : ℚ, n = (env.random k - 1 / 2) * ((amount : ℚ) / 100 * 50) →
        (0 ≤ (r : ℚ) + n ∧ (r : ℚ) + n ≤ 255) → (0 ≤ (g : ℚ) + n ∧ (g : ℚ) + n ≤ 255) →
        (0 ≤ (b : ℚ) + n ∧ (b : ℚ) + n ≤ 255) →
          |(r2 : ℚ) - ((r : ℚ) + n)| ≤ 1 / 2 + 1 / 1000000000 ∧
          |(g2 : ℚ) - ((g : ℚ) + n)| ≤ 1 / 2 + 1 / 1000000000 ∧
          |(b2 : ℚ) - ((b : ℚ) + n)| ≤ 1 / 2 + 1 / 1000000000 ∧
          |((r2 : ℤ) - (r : ℤ)) - ((g2 : ℤ) - (g : ℤ))| ≤ 1 ∧
          |((g2 : ℤ) - (g : ℤ)) - ((b2 : ℤ) - (b : ℤ))| ≤ 1 ∧
          |((r2 : ℤ) - (r : ℤ)) - ((b2 : ℤ) - (b : ℤ))| ≤ 1 := by
  have hpix := grainLoop_pixel (grainIntensity amount) env.random k 0 st.canvas r g b a hp
  rw [Nat.zero_add, ← applyGrainEffect_canvas] at hpix
  refine ⟨_, _, _, hpix, ?_⟩
  intro n hn hr hg hbb
  obtain ⟨hnoise, -⟩ := grainNoise_close amount ha.1 ha.2 (env.random k) hu.1 hu.2
  rw [← hn] at hnoise
  have e79 : 79 * ulp ≤ 1 / 1000000000 := by unfold ulp; norm_num
  have cr := grainChannel_close r _ n hnoise hr.1 hr.2
  have cg := grainChannel_close g _ n hnoise hg.1 hg.2
  have cb := grainChannel_close b _ n hnoise hbb.1 hbb.2
  have cr' := le_trans cr (by linarith : (1 : ℚ) / 2 + 79 * ulp ≤ 1 / 2 + 1 / 1000000000)
  have cg' := le_trans cg (by linarith : (1 : ℚ) / 2 + 79 * ulp ≤ 1 / 2 + 1 / 1000000000)
  have cb' := le_trans cb (by linarith : (1 : ℚ) / 2 + 79 * ulp ≤ 1 / 2 + 1 / 1000000000)
  exact ⟨cr', cg', cb', changes_close _ r _ g n _ (by norm_num) cr' cg',
    changes_close _ g _ b n _ (by norm_num) cg' cb',
    changes_close _ r _ b n _ (by norm_num) cr' cb'⟩

/-- C8 (counterexample): with `amount = 4` and the sample `0.75` the noise is
exactly `0.5`; on the pixel `(0, 1, 0, 255)` the sums `0.5`, `1.5`, `0.5` are
inside `[0, 255]` and are stored as `0`, `2`, `0` (ties go to the even byte):
red and blue do not change while green changes by one. -/
theorem applyGrainEffect_unequal_changes :
    (applyGrainEffect { color1 := "", color2 := "", random := fun _ => 3 / 4 } 4
      { heap := [], originalImageData := none, isInverted := false, grainAmount := 4,
        canvas := [0, 1, 0, 255], alerts := [], reads := [] }).canvas = [0, 2, 0, 255] ∧
    ((3 / 4 : ℚ) - 1 / 2) * ((4 : ℚ) / 100 * 50) = 1 / 2 ∧
    ((0 : ℤ) - 0) ≠ ((2 : ℤ) - 1) := by
  refine ⟨by decide!, by norm_num, by decide⟩

/-! ## The statements at concrete inputs -/

theorem example_loaded : Loaded exampleState exampleSource exampleData :=
  ⟨rfl, rfl, rfl, by decide, by decide⟩

theorem example_loaded_inverted :
    Loaded { exampleState with isInverted := true } exampleSource exampleData :=
  ⟨rfl, rfl, rfl, by decide, by decide⟩

/-- Instance of C1 on the one-pixel session. -/
theorem applyDuotoneEffect_plain_witness :
    Loaded exampleState exampleSource exampleData ∧ exampleState.grainAmount = 0 ∧
    exampleState.isInverted = false ∧
    (applyDuotoneEffect exampleEnv exampleState).2 = none ∧
    (applyDuotoneEffect exampleEnv exampleState).1.canvas.length = exampleData.length ∧
    (applyDuotoneEffect exampleEnv exampleState).1.heap.length = exampleState.heap.length + 1 :=
  ⟨example_loaded, rfl, rfl,
    (applyDuotoneEffect_plain exampleEnv exampleState exampleSource exampleData
      example_loaded rfl rfl).1,
    (applyDuotoneEffect_plain exampleEnv exampleState exampleSource exampleData
      example_loaded rfl rfl).2.1,
    (applyDuotoneEffect_plain exampleEnv exampleState exampleSource exampleData
      example_loaded rfl rfl).2.2.1⟩

/-- Instance of C2 on the one-pixel session. -/
theorem applyDuotoneEffect_inverted_witness :
    Loaded exampleState exampleSource exampleData ∧ exampleState.grainAmount = 0 ∧
    (applyDuotoneEffect exampleEnv { exampleState with isInverted := true }).1.canvas.length
      = (applyDuotoneEffect exampleEnv { exampleState with isInverted := false }).1.canvas.length ∧
    toggleInvert exampleEnv { exampleState with isInverted := false }
      = applyDuotoneEffect exampleEnv { exampleState with isInverted := true } :=
  ⟨example_loaded, rfl,
    (applyDuotoneEffect_inverted exampleEnv exampleState exampleSource exampleData
      example_loaded rfl).1,
    (applyDuotoneEffect_inverted exampleEnv exampleState exampleSource exampleData
      example_loaded rfl).2.1⟩

/-- Instance of C3: a session whose single pixel is black. -/
theorem applyDuotoneEffect_black_white_witness :
    Loaded { exampleState with heap := [[0, 0, 0, 7]] } exampleSource [0, 0, 0, 7] ∧
    pixelAt [0, 0, 0, 7] 0 = some (0, 0, 0, 7) ∧
    pixelAt (applyDuotoneEffect exampleEnv { exampleState with heap := [[0, 0, 0, 7]] }).1.canvas 0
      = some ((hexToRgb exampleEnv.color1).r, (hexToRgb exampleEnv.color1).g,
          (hexToRgb exampleEnv.color1).b, 7) :=
  ⟨⟨rfl, rfl, rfl, by decide, by decide⟩, by decide,
    (applyDuotoneEffect_black_white exampleEnv { exampleState with heap := [[0, 0, 0, 7]] }
      exampleSource [0, 0, 0, 7] ⟨rfl, rfl, rfl, by decide, by decide⟩ rfl rfl 0 7).1
      (by decide)⟩

/-- Instance of C4 on the one-pixel session with grain at 100. -/
theorem applyDuotoneEffect_bytes_witness :
    Loaded { exampleState with grainAmount := 100 } exampleSource exampleData ∧
    (applyDuotoneEffect exampleEnv { exampleState with grainAmount := 100 }).2 = none ∧
    ∀ x ∈ (applyDuotoneEffect exampleEnv { exampleState with grainAmount := 100 }).1.canvas,
      x ≤ 255 :=
  ⟨⟨rfl, rfl, rfl, by decide, by decide⟩,
    (applyDuotoneEffect_bytes exampleEnv { exampleState with grainAmount := 100 } exampleSource
      exampleData ⟨rfl, rfl, rfl, by decide, by decide⟩).1,
    (applyDuotoneEffect_bytes exampleEnv { exampleState with grainAmount := 100 } exampleSource
      exampleData ⟨rfl, rfl, rfl, by decide, by decide⟩).2.1⟩

/-- Instance of C5: a source array of five bytes. -/
theorem applyDuotoneEffect_invalid_buffer_witness :
    ([1, 2, 3, 4, 5] : List ℕ).length % 4 ≠ 0 ∧
    applyDuotoneEffect exampleEnv { exampleState with heap := [[1, 2, 3, 4, 5]] }
      = ({ exampleState with heap := [[1, 2, 3, 4, 5]] }, some DOMException.invalidStateError) :=
  ⟨by decide,
    applyDuotoneEffect_invalid_buffer exampleEnv { exampleState with heap := [[1, 2, 3, 4, 5]] }
      exampleSource [1, 2, 3, 4, 5] rfl rfl (Or.inr (by decide))⟩

/-- Instance of C6: a mixed-case colour and a string that is not a colour. -/
theorem hexToRgb_spec_witness :
    hexToRgb "#FfA500" = { r := 16 * hexDigitValue 'F' + hexDigitValue 'f',
                           g := 16 * hexDigitValue 'A' + hexDigitValue '5',
                           b := 16 * hexDigitValue '0' + hexDigitValue '0' } ∧
    hexToRgb "notacolor" = { r := 0, g := 0, b := 0 } :=
  ⟨((hexToRgb_spec "#FfA500").1 'F' 'f' 'A' '5' '0' '0' (by decide) (by decide) (by decide)
      (by decide) (by decide) (by decide) (Or.inr rfl)).1,
    (hexToRgb_spec "notacolor").2 (by
      rintro ⟨a, b, c, d, e, f, -, -, -, -, -, -, h | h⟩
      · have := congrArg List.length h
        simp at this
      · have := congrArg List.length h
        simp at this)⟩

/-- Instance of C7: three handler calls on the one-pixel session. -/
theorem runCalls_source_unchanged_witness :
    exampleState.originalImageData = some exampleSource ∧
    exampleState.heap[exampleSource.data]? = some exampleData ∧
    (runCalls exampleState [Call.toggleInvert exampleEnv, Call.updateGrainValue exampleEnv 40,
      Call.applyDuotoneEffect exampleEnv]).originalImageData = some exampleSource ∧
    (runCalls exampleState [Call.toggleInvert exampleEnv, Call.updateGrainValue exampleEnv 40,
      Call.applyDuotoneEffect exampleEnv]).heap[exampleSource.data]? = some exampleData :=
  ⟨rfl, rfl,
    runCalls_source_unchanged [Call.toggleInvert exampleEnv, Call.updateGrainValue exampleEnv 40,
      Call.applyDuotoneEffect exampleEnv] exampleState exampleSource exampleData rfl rfl⟩

/-- Instance of C8: the pixel of the one-pixel canvas, `amount = 100`. -/
theorem applyGrainEffect_pixel_witness :
    pixelAt exampleState.canvas 0 = some (0, 201, 81, 255) ∧
    ((0 : ℤ) < 100 ∧ (100 : ℤ) ≤ 100) ∧
    (0 ≤ exampleEnv.random 0 ∧ exampleEnv.random 0 < 1) ∧
    ∃ r2 g2 b2 : ℕ,
      pixelAt (applyGrainEffect exampleEnv 100 exampleState).canvas 0 = some (r2, g2, b2, 255) ∧
      ∀ n : ℚ, n = (exampleEnv.random 0 - 1 / 2) * (((100 : ℤ) : ℚ) / 100 * 50) →
        (0 ≤ ((0 : ℕ) : ℚ) + n ∧ ((0 : ℕ) : ℚ) + n ≤ 255) →
        (0 ≤ ((201 : ℕ) : ℚ) + n ∧ ((201 : ℕ) : ℚ) + n ≤ 255) →
        (0 ≤ ((81 : ℕ) : ℚ) + n ∧ ((81 : ℕ) : ℚ) + n ≤ 255) →
          |(r2 : ℚ) - (((0 : ℕ) : ℚ) + n)| ≤ 1 / 2 + 1 / 1000000000 ∧
          |(g2 : ℚ) - (((201 : ℕ) : ℚ) + n)| ≤ 1 / 2 + 1 / 1000000000 ∧
          |(b2 : ℚ) - (((81 : ℕ) : ℚ) + n)| ≤ 1 / 2 + 1 / 1000000000 ∧
          |((r2 : ℤ) - ((0 : ℕ) : ℤ)) - ((g2 : ℤ) - ((201 : ℕ) : ℤ))| ≤ 1 ∧
          |((g2 : ℤ) - ((201 : ℕ) : ℤ)) - ((b2 : ℤ) - ((81 : ℕ) : ℤ))| ≤ 1 ∧
          |((r2 : ℤ) - ((0 : ℕ) : ℤ)) - ((b2 : ℤ) - ((81 : ℕ) : ℤ))| ≤ 1 :=
  ⟨by decide, by decide, by norm_num [exampleEnv],
    applyGrainEffect_pixel exampleEnv 100 exampleState 0 0 201 81 255 (by decide) (by decide)
      (by norm_num [exampleEnv])⟩

/-- Instance of C10: a black and a white pixel between black and white. -/
theorem duotoneStep_monotone_witness :
    exactLuma 0 0 0 < exactLuma 255 255 255 ∧
    ChannelOrdered 0 255
      (duotoneStep { r := 0, g := 0, b := 0 } { r := 255, g := 255, b := 255 } false 0 0 0).1
      (duotoneStep { r := 0, g := 0, b := 0 } { r := 255, g := 255, b := 255 } false
        255 255 255).1 :=
  ⟨by norm_num [exactLuma],
    ((duotoneStep_monotone { r := 0, g := 0, b := 0 } { r := 255, g := 255, b := 255 }
      0 0 0 255 255 255 (by decide) (by decide) (by decide) (by decide)).2
      (by norm_num [exactLuma])).1⟩

end Kreatone
